import Mathlib

/-!
# Columnize

A shallow embedding of `columnize.go` (package `columnize`) together with the
slice of the Go standard library it calls (`strings.Split`,
`strings.TrimSpace`, `fmt.Sprintf`, the builtin `len`).

Modelling conventions.

* A Go string is modelled by the sequence of its Unicode code points, so the
  model covers the strings that are well-formed UTF-8.  The builtin `len`
  counts bytes of the UTF-8 encoding (`len`), while `fmt` pads by counting
  runes (`runeCount`); both measures are kept apart.
* `[]int` holding lengths is a `List Nat`; a Go `for i := 0; i < n; i++` loop is
  a left fold over `List.range n`.
* `fmt.Sprintf` is modelled on the directives `columnize.go` can build by
  itself, with the limit `fmt` puts on a width, and on the simplest ones a
  caller can smuggle in through `Glue`; everything else yields `none` (see
  `doPrintf`).
* The functions named `...Checked` repeat the loops with every index expression
  and type assertion as a partial operation, `none` standing for the run-time
  panic; they are shown never to panic and to agree with the total ones.
-/

namespace Columnize

/-! ## Strings -/

/-- A Go string, as the sequence of its code points. -/
abbrev GoString := List Char

/-- The number of bytes `utf8.RuneLen` reports for a code point. -/
def runeLen (r : Char) : Nat :=
  if r.toNat < 0x80 then 1
  else if r.toNat < 0x800 then 2
  else if r.toNat < 0x10000 then 3
  else 4

/-- The builtin `len` on a string: the byte length of its UTF-8 encoding. -/
def len (s : GoString) : Nat := (s.map runeLen).sum

/-- The function `utf8.RuneCountInString`. -/
def runeCount (s : GoString) : Nat := s.length

/-- The predicate `unicode.IsSpace`: the Latin-1 spaces and the code points with
the White_Space property. -/
def isSpace (r : Char) : Bool :=
  let n := r.toNat
  if n ≤ 0xFF then
    n == 0x09 || n == 0x0A || n == 0x0B || n == 0x0C || n == 0x0D || n == 0x20 ||
      n == 0x85 || n == 0xA0
  else
    n == 0x1680 || (0x2000 ≤ n && n ≤ 0x200A) || n == 0x2028 || n == 0x2029 ||
      n == 0x202F || n == 0x205F || n == 0x3000

/-- The function `strings.TrimLeftFunc`. -/
def TrimLeftFunc (s : GoString) (f : Char → Bool) : GoString := s.dropWhile f

/-- The function `strings.TrimRightFunc`. -/
def TrimRightFunc (s : GoString) (f : Char → Bool) : GoString := s.rdropWhile f

/-- The function `strings.TrimSpace`, which is `TrimFunc(s, unicode.IsSpace)`. -/
def TrimSpace (s : GoString) : GoString := TrimRightFunc (TrimLeftFunc s isSpace) isSpace

/-- Puts a code point in front of the first piece of a split. -/
def consHead (c : Char) : List GoString → List GoString
  | [] => [[c]]
  | f :: fs => (c :: f) :: fs

/-- The loop of `strings.Split` for a non-empty separator: scan left to right,
cut at the leftmost occurrence of `sep` and resume right after it (`skip`
counts the code points of a matched separator still to pass over). -/
def splitLoop (sep : GoString) : GoString → Nat → List GoString
  | [], _ => [[]]
  | _ :: cs, skip + 1 => splitLoop sep cs skip
  | c :: cs, 0 =>
    if sep.isPrefixOf (c :: cs) then [] :: splitLoop sep cs (sep.length - 1)
    else consHead c (splitLoop sep cs 0)

/-- The function `strings.Split`: with an empty separator the string is exploded
into its code points (and the empty string into no piece at all). -/
def Split (s sep : GoString) : List GoString :=
  if sep = [] then s.map (fun c => [c]) else splitLoop sep s 0

/-! ## The fragment of `fmt.Sprintf` -/

/-- An operand of `Sprintf` (an `interface{}` holding a string or an int). -/
inductive GoArg where
  | str (s : GoString)
  | int (n : Int)
  deriving DecidableEq, Repr

/-- The decimal digit of a number below ten. -/
def digitChar (d : Nat) : Char := Char.ofNat (48 + d)

/-- The decimal digits of `n`, least significant first (`fuel` bounds the count). -/
def digitsRev : Nat → Nat → GoString
  | 0, _ => []
  | fuel + 1, n => if n < 10 then [digitChar n] else digitChar (n % 10) :: digitsRev fuel (n / 10)

/-- The decimal rendering of a natural number. -/
def natDigits (n : Nat) : GoString := (digitsRev (n + 1) n).reverse

/-- The rendering of an int under `%d`. -/
def itoa : Int → GoString
  | .ofNat m => natDigits m
  | .negSucc m => '-' :: natDigits (m + 1)

/-- Whether a byte of the format is a decimal digit. -/
def isDigit (c : Char) : Bool := 48 ≤ c.toNat && c.toNat ≤ 57

/-- The value of a decimal digit. -/
def digitVal (c : Char) : Nat := c.toNat - 48

/-- The method `padString` of `fmt`: without a width the string is written as it is;
otherwise it is filled with spaces up to `wid` runes, on the right under the
minus flag and on the left without it. -/
def padString (minus : Bool) (wid : Option Nat) (s : GoString) : GoString :=
  match wid with
  | none => s
  | some w =>
    if minus then s ++ List.replicate (w - runeCount s) ' '
    else List.replicate (w - runeCount s) ' ' ++ s

/-- The method `printArg` on the modelled verbs: `%s` and `%v` on a string (zero
padding on the left is not modelled), `%d` and `%v` without flags or width on
an int.  A verb that `fmtString` does not know goes to `badVerb`, which writes
`%!verb(string=value)`; that is modelled for a directive without width, and
the verbs `q`, `x`, `X`, `T` and `w` are left out. -/
def printArg (minus zero : Bool) (wid : Option Nat) (verb : Char) : GoArg → Option GoString
  | .str s =>
    if verb = 's' ∨ verb = 'v' then
      if zero && !minus && wid.isSome then none else some (padString minus wid s)
    else if verb = 'q' ∨ verb = 'x' ∨ verb = 'X' ∨ verb = 'T' ∨ verb = 'w' then none
    else if wid.isSome then none
    else some ('%' :: '!' :: verb :: "(string=".toList ++ s ++ [')'])
  | .int n =>
    if (verb = 'd' ∨ verb = 'v') ∧ minus = false ∧ zero = false ∧ wid = none then some (itoa n)
    else none

/-- The name `reflect.TypeOf(arg).String()`. -/
def typeName : GoArg → GoString
  | .str _ => "string".toList
  | .int _ => "int".toList

/-- The text `%!(EXTRA type=value, ...)` appended for operands no verb consumed. -/
def extraArgs : List GoArg → GoString
  | [] => []
  | a :: as =>
    "%!(EXTRA ".toList ++
      ", ".toList.intercalate ((a :: as).map fun x =>
        typeName x ++ '=' :: (match x with | .str s => s | .int n => itoa n)) ++ [')']

/-- Where `doPrintf` stands in the format: in literal text, among the flags that
follow a percent sign, or inside the decimal width. -/
inductive FmtState where
  | text
  | flags (minus zero : Bool)
  | width (minus zero : Bool) (wid : Nat)

/-- Characters that start a part of a directive left out of the model. -/
def unmodelled (c : Char) : Bool :=
  c = '#' || c = '+' || c = ' ' || c = '*' || c = '[' || c = '.'

/-- One directive whose verb is `verb`: its output and the operands left. -/
def directive (minus zero : Bool) (wid : Option Nat) (verb : Char) (args : List GoArg) :
    Option (GoString × List GoArg) :=
  if unmodelled verb then none
  else
    match args with
    | [] => some ("%!".toList ++ verb :: "(MISSING)".toList, [])
    | a :: as => (printArg minus zero wid verb a).map fun out => (out, as)

/-- The constant `max` of `tooLarge` in `fmt`: `parsenum` gives up on a number
once the value read so far exceeds it and a further digit follows. -/
def widthLimit : Nat := 1000000

/-- The method `doPrintf` of `fmt`, for operands consumed in order.  Modelled: literal
text, the bare `%%`, the flags `-` and `0`, a decimal width, the verbs of
`printArg`, a verb without operand (`%!v(MISSING)`), a format ending inside a
directive (`%!(NOVERB)`) and operands left over (`%!(EXTRA ...)`).  A width is
read by `parsenum`: when the value read so far is `tooLarge` and one more digit
follows, `parsenum` reports no number and moves to the end of the format, so
that `doPrintf` writes `%!(NOVERB)`, leaves the rest of the format unread and
lists every operand not yet consumed as extra; the widths read in full are
those up to `10 * widthLimit + 9`.  The flags `#`, `+` and space, `*`, argument
indexes, precisions, every other verb and a decorated `%%` give `none`. -/
def doPrintf : FmtState → GoString → List GoArg → Option GoString
  | .text, [], args => some (extraArgs args)
  | .text, c :: cs, args =>
    if c = '%' then doPrintf (.flags false false) cs args
    else (doPrintf .text cs args).map (c :: ·)
  | .flags _ _, [], args => some ("%!(NOVERB)".toList ++ extraArgs args)
  | .flags m z, c :: cs, args =>
    if c = '-' then doPrintf (.flags true z) cs args
    else if c = '0' then doPrintf (.flags m true) cs args
    else if isDigit c then doPrintf (.width m z (digitVal c)) cs args
    else if c = '%' then
      if m || z then none else (doPrintf .text cs args).map ('%' :: ·)
    else
      match directive m z none c args with
      | none => none
      | some (out, rest) => (doPrintf .text cs rest).map (out ++ ·)
  | .width _ _ _, [], args => some ("%!(NOVERB)".toList ++ extraArgs args)
  | .width m z w, c :: cs, args =>
    if isDigit c then
      if widthLimit < w then some ("%!(NOVERB)".toList ++ extraArgs args)
      else doPrintf (.width m z (w * 10 + digitVal c)) cs args
    else if c = '%' then none
    else
      match directive m z (some w) c args with
      | none => none
      | some (out, rest) => (doPrintf .text cs rest).map (out ++ ·)

/-- The function `fmt.Sprintf` on the modelled fragment. -/
def Sprintf (format : GoString) (args : List GoArg) : Option GoString :=
  doPrintf .text format args

/-! ## columnize.go -/

/-- The struct `Config`. -/
structure Config where
  /-- The string by which the lines of input will be split. -/
  Delim : GoString
  /-- The string by which columns of output will be separated. -/
  Glue : GoString
  deriving DecidableEq, Repr

/-- Returns a Config with default values. -/
def DefaultConfig : Config := { Delim := "|".toList, Glue := "  ".toList }

/-- Returns a list of elements, each representing a single item which will
belong to a column of output. -/
def getElementsFromLine (line delim : GoString) : List GoString :=
  (Split line delim).foldl (fun elements field => elements ++ [TrimSpace field]) []

/-- The body of the inner loop of `getWidthsFromLines`, at index `i`. -/
def widthStep (elems : List GoString) (widths : List Nat) (i : Nat) : List Nat :=
  if widths.length ≤ i then widths ++ [len (elems.getD i [])]
  else if widths.getD i 0 < len (elems.getD i []) then widths.set i (len (elems.getD i []))
  else widths

/-- The inner loop of `getWidthsFromLines` over the elements of one line. -/
def updateWidths (elems : List GoString) (widths : List Nat) : List Nat :=
  (List.range elems.length).foldl (widthStep elems) widths

/-- Examines a list of strings and determines how wide each column should be
considering all of the elements that need to be printed within it. -/
def getWidthsFromLines (lines : List GoString) (delim : GoString) : List Nat :=
  lines.foldl (fun widths line => updateWidths (getElementsFromLine line delim) widths) []

/-- The value of `fmt.Sprintf("%%-%ds%s", w, space)`; outside the modelled
fragment never happens here (`sprintfColumn_eq`). -/
def sprintfColumn (w : Nat) (space : GoString) : GoString :=
  (Sprintf "%%-%ds%s".toList [.int w, .str space]).getD []

/-- Given a set of column widths and the number of columns in the current line,
returns a sprintf-style format string which can be used to print output
aligned properly with other lines using the same widths set. -/
def getStringFormat (widths : List Nat) (columns : Nat) (space : GoString) : GoString :=
  (List.range (min columns widths.length)).foldl (fun stringfmt i =>
    if i = columns - 1 then stringfmt ++ "%s\n".toList
    else stringfmt ++ sprintfColumn (widths.getD i 0) space) []

/-- The dynamic type of the `input interface{}` argument of `Format`. -/
inductive Input where
  | str (s : GoString)
  | strs (lines : List GoString)
  | other
  deriving DecidableEq, Repr

/-- A Go `error` value, identified with its message (`nil` is `none`). -/
abbrev GoError := GoString

/-- The type switch of `Format`: the lines to format, `none` in the default case. -/
def inputLines : Input → Option (List GoString)
  | .str s => some ((Split s "\n".toList).foldl (fun lines line => lines ++ [line]) [])
  | .strs lines => some lines
  | .other => none

/-- The body of `Format`, with the call `fmt.Sprintf(stringfmt, elems...)` of the
rendering loop left to the function `sprintf`. -/
def FormatWith (sprintf : GoString → List GoString → GoString) (input : Input)
    (config : Config) : GoString × Option GoError :=
  match inputLines input with
  | none => ([], some "columnize: Expected string or []string".toList)
  | some lines =>
    let widths := getWidthsFromLines lines config.Delim
    let result := lines.foldl (fun result line =>
      let elems := getElementsFromLine line config.Delim
      let stringfmt := getStringFormat widths elems.length config.Glue
      result ++ sprintf stringfmt elems) []
    (TrimSpace result, none)

/-- The call `fmt.Sprintf(stringfmt, elems...)` on string operands.  The value is
that of `fmt` wherever `Sprintf` is `some`; on a format outside the modelled
fragment (see `doPrintf`), where `fmt` prints a text that is left out here, the
value is a placeholder, the empty string, and nothing is proved from it. -/
def sprintfElems (stringfmt : GoString) (elems : List GoString) : GoString :=
  (Sprintf stringfmt (elems.map GoArg.str)).getD []

/-- Format is the public-facing interface that takes either a plain string
or a list of strings, plus a delimiter, and returns nicely aligned output. -/
def Format (input : Input) (config : Config) : GoString × Option GoError :=
  FormatWith sprintfElems input config

/-- Convenience function for using Columnize as easy as possible. -/
def SimpleFormat (input : Input) : GoString × Option GoError :=
  Format input DefaultConfig

/-! ## Definitions used to state the properties -/

/-- The column-wise maximum of two width vectors, the longer one deciding the
length. -/
def mergeWidths : List Nat → List Nat → List Nat
  | [], ls => ls
  | w :: ws, [] => w :: ws
  | w :: ws, l :: ls => max w l :: mergeWidths ws ls

/-- The outer loop of `getWidthsFromLines`, started from the vector `ws`. -/
def widthsFrom (delim : GoString) (ws : List Nat) (lines : List GoString) : List Nat :=
  lines.foldl (fun widths line => updateWidths (getElementsFromLine line delim) widths) ws

/-- The string `s` filled on the right with spaces up to `w` runes, and left
unchanged when it has that many already. -/
def padRight (w : Nat) (s : GoString) : GoString := s ++ List.replicate (w - runeCount s) ' '

/-- The directive `%-Ns` that `getStringFormat` writes for a column of width `w`. -/
def columnDirective (w : Nat) : GoString := '%' :: '-' :: (natDigits w ++ ['s'])

/-- The rendered line of C1 for the trimmed fields `f_0 .. f_{k-1}`: for each
`i < k-1` the field `f_i` padded on the right to `widths[i]` followed by the
glue, then `f_{k-1}` as it is followed by a newline (and nothing at all for a
line without fields). -/
def renderedLine (widths : List Nat) (glue : GoString) (fields : List GoString) : GoString :=
  ((List.range (fields.length - 1)).map fun i =>
      padRight (widths.getD i 0) (fields.getD i []) ++ glue).flatten ++
    match fields.getLast? with
    | none => []
    | some f => f ++ "\n".toList


/-- The offset at which column `j` starts: the sum over `i < j` of `widths[i]` plus
the number of code points of the glue. -/
def columnOffset (widths : List Nat) (glue : GoString) (j : Nat) : Nat :=
  ((List.range j).map fun i => widths.getD i 0 + runeCount glue).sum

/-- The property of C4: for every input line `r` and every column `j` it has, line
`r` of the output of `Format` (split on newlines) carries the trimmed field `j`
of input line `r` from the offset of column `j` on. -/
def ColumnAligned (lines : List GoString) (config : Config) : Prop :=
  ∀ (r j : Nat) (line field : GoString), lines[r]? = some line →
    (getElementsFromLine line config.Delim)[j]? = some field →
    (((Split (Format (.strs lines) config).1 "\n".toList).getD r []).drop
        (columnOffset (getWidthsFromLines lines config.Delim) config.Glue j)).take
      (runeCount field) = field

/-! ## The loops with their run-time checks -/

/-- The slice `[]interface{}` that `getElementsFromLine` returns: every trimmed
field boxed as an interface value. -/
def getElementsFromLineBoxed (line delim : GoString) : List GoArg :=
  (Split line delim).foldl (fun elements field => elements ++ [GoArg.str (TrimSpace field)]) []

/-- The type assertion `x.(string)`; `none` is its run-time panic. -/
def assertString : GoArg → Option GoString
  | .str s => some s
  | .int _ => none

/-- The body of the inner loop of `getWidthsFromLines` with each index expression
and each type assertion checked as the Go run time does; `none` is a panic. -/
def widthStepChecked (elems : List GoArg) (widths : List Nat) (i : Nat) : Option (List Nat) :=
  if widths.length ≤ i then
    (elems[i]?.bind assertString).map fun s => widths ++ [len s]
  else
    widths[i]?.bind fun w =>
      (elems[i]?.bind assertString).bind fun s =>
        if w < len s then
          (elems[i]?.bind assertString).bind fun s2 =>
            if i < widths.length then some (widths.set i (len s2)) else none
        else some widths

/-- The inner loop of `getWidthsFromLines`, checked. -/
def updateWidthsChecked (elems : List GoArg) (widths : List Nat) : Option (List Nat) :=
  (List.range elems.length).foldlM (widthStepChecked elems) widths

/-- The function `getWidthsFromLines`, checked. -/
def getWidthsFromLinesChecked (lines : List GoString) (delim : GoString) : Option (List Nat) :=
  lines.foldlM (fun widths line =>
    updateWidthsChecked (getElementsFromLineBoxed line delim) widths) []

/-- The function `getStringFormat` with the read of `widths[i]` checked. -/
def getStringFormatChecked (widths : List Nat) (columns : Nat) (space : GoString) :
    Option GoString :=
  (List.range (min columns widths.length)).foldlM (fun stringfmt i =>
    if i = columns - 1 then some (stringfmt ++ "%s\n".toList)
    else widths[i]?.map fun w => stringfmt ++ sprintfColumn w space) []

/-- The function `Format` over the checked loops: `none` when one of them panics. -/
def FormatWithChecked (sprintf : GoString → List GoArg → GoString) (input : Input)
    (config : Config) : Option (GoString × Option GoError) :=
  match inputLines input with
  | none => some ([], some "columnize: Expected string or []string".toList)
  | some lines =>
    (getWidthsFromLinesChecked lines config.Delim).bind fun widths =>
      (lines.foldlM (fun result line =>
        (getStringFormatChecked widths (getElementsFromLineBoxed line config.Delim).length
            config.Glue).map fun stringfmt =>
          result ++ sprintf stringfmt (getElementsFromLineBoxed line config.Delim)) []).map
        fun result => (TrimSpace result, none)

/-! ## The output seen line by line -/

/-- The body of a rendered line: the rendered line without its final newline. -/
def renderedBody (widths : List Nat) (glue : GoString) (fields : List GoString) : GoString :=
  ((List.range (fields.length - 1)).map fun i =>
      padRight (widths.getD i 0) (fields.getD i []) ++ glue).flatten ++
    fields.getLast?.getD []

/-- The rows with the white space in front of the first one removed. -/
def trimFirst : List GoString → List GoString
  | [] => []
  | b :: bs => TrimLeftFunc b isSpace :: bs

/-- The rows with the white space at the end of the last one removed. -/
def trimLast : List GoString → List GoString
  | [] => []
  | [b] => [TrimRightFunc b isSpace]
  | b :: b2 :: bs => b :: trimLast (b2 :: bs)

/-- The property of C14: splitting line `r` of the output of `Format` on the glue
and trimming each piece gives the trimmed fields of input line `r`. -/
def FieldsRecovered (lines : List GoString) (config : Config) : Prop :=
  ∀ (r : Nat) (line : GoString), lines[r]? = some line →
    (Split ((Split (Format (.strs lines) config).1 "\n".toList).getD r []) config.Glue).map
      TrimSpace = getElementsFromLine line config.Delim

/-- The trimmed fields of every line of a text. -/
def fieldsOf (delim s : GoString) : List (List GoString) :=
  (Split s "\n".toList).map fun line => getElementsFromLine line delim

/-- The width vector of lines given by their fields. -/
def widthsOfFields (fl : List (List GoString)) : List Nat :=
  fl.foldl (fun widths fs => mergeWidths widths (fs.map len)) []

/-- The concatenation of the rendered lines of lines given by their fields. -/
def renderRows (widths : List Nat) (glue : GoString) (fl : List (List GoString)) : GoString :=
  (fl.map (renderedLine widths glue)).flatten

/-- Puts a code point behind the last piece of a split. -/
def snocLast (c : Char) : List GoString → List GoString
  | [] => [[c]]
  | [p] => [p ++ [c]]
  | p :: q :: ps => p :: snocLast c (q :: ps)

/-! ## Strings: lemmas -/

theorem foldl_append_singleton {α β : Type} (f : α → β) (l : List α) (init : List β) :
    l.foldl (fun acc x => acc ++ [f x]) init = init ++ l.map f := by
  induction l generalizing init with
  | nil => simp
  | cons x xs ih => simp [ih]

theorem foldl_append_join {α β : Type} (g : α → List β) (l : List α) (init : List β) :
    l.foldl (fun acc x => acc ++ g x) init = init ++ (l.map g).flatten := by
  induction l generalizing init with
  | nil => simp
  | cons x xs ih => simp [ih]

theorem head?_eq_get_zero (l : GoString) (h : 0 < l.length) :
    l.head? = some (l.get ⟨0, h⟩) := by
  cases l with
  | nil => simp at h
  | cons a u => rfl

theorem TrimLeftFunc_head (s : GoString) (f : Char → Bool) (c : Char)
    (h : (TrimLeftFunc s f).head? = some c) : f c = false := by
  have := List.head?_dropWhile_not f s
  unfold TrimLeftFunc at h
  rw [h] at this
  exact this

theorem TrimRightFunc_getLast (s : GoString) (f : Char → Bool) (c : Char)
    (h : (TrimRightFunc s f).getLast? = some c) : f c = false := by
  unfold TrimRightFunc at h
  have hne : s.rdropWhile f ≠ [] := by
    intro h0
    rw [h0] at h
    simp at h
  have := List.rdropWhile_last_not f s hne
  rw [List.getLast?_eq_getLast _ hne] at h
  simp only [Option.some.injEq] at h
  rw [h] at this
  simpa using this

theorem TrimRightFunc_prefix (s : GoString) (f : Char → Bool) : TrimRightFunc s f <+: s :=
  List.rdropWhile_prefix f s

theorem TrimSpace_head (s : GoString) (c : Char) (h : (TrimSpace s).head? = some c) :
    isSpace c = false := by
  unfold TrimSpace at h
  obtain ⟨t, ht⟩ := TrimRightFunc_prefix (TrimLeftFunc s isSpace) isSpace
  cases hu : TrimRightFunc (TrimLeftFunc s isSpace) isSpace with
  | nil => rw [hu] at h; simp at h
  | cons a u =>
    rw [hu] at h ht
    simp only [List.head?_cons, Option.some.injEq] at h
    subst h
    apply TrimLeftFunc_head s isSpace
    rw [← ht]
    simp

theorem TrimSpace_getLast (s : GoString) (c : Char) (h : (TrimSpace s).getLast? = some c) :
    isSpace c = false :=
  TrimRightFunc_getLast _ _ _ h

theorem TrimSpace_idem (s : GoString) : TrimSpace (TrimSpace s) = TrimSpace s := by
  have hl : TrimLeftFunc (TrimSpace s) isSpace = TrimSpace s := by
    unfold TrimLeftFunc
    rw [List.dropWhile_eq_self_iff]
    intro hpos
    have hh := head?_eq_get_zero (TrimSpace s) hpos
    rw [TrimSpace_head s _ hh]
    simp
  have hr : TrimRightFunc (TrimSpace s) isSpace = TrimSpace s := by
    unfold TrimRightFunc
    rw [List.rdropWhile_eq_self_iff]
    intro hne
    have hh : (TrimSpace s).getLast? = some ((TrimSpace s).getLast hne) :=
      List.getLast?_eq_getLast _ hne
    simp [TrimSpace_getLast s _ hh]
  show TrimRightFunc (TrimLeftFunc (TrimSpace s) isSpace) isSpace = _
  rw [hl, hr]

/-! ## The width vector -/

theorem mergeWidths_nil_right (ws : List Nat) : mergeWidths ws [] = ws := by
  cases ws <;> rfl

theorem mergeWidths_length (ws ls : List Nat) :
    (mergeWidths ws ls).length = max ws.length ls.length := by
  induction ws generalizing ls with
  | nil => simp [mergeWidths]
  | cons w ws ih =>
    cases ls with
    | nil => simp [mergeWidths]
    | cons l ls => simp [mergeWidths, ih, Nat.succ_max_succ]

theorem mergeWidths_getElem? (ws ls : List Nat) (i : Nat) :
    (mergeWidths ws ls)[i]? =
      match ws[i]?, ls[i]? with
      | some w, some l => some (max w l)
      | some w, none => some w
      | none, some l => some l
      | none, none => none := by
  induction ws generalizing ls i with
  | nil => cases h : ls[i]? <;> simp [mergeWidths, h]
  | cons w ws ih =>
    cases ls with
    | nil => cases h : (w :: ws)[i]? <;> simp [mergeWidths, h]
    | cons l ls =>
      cases i with
      | zero => simp [mergeWidths]
      | succ i => simpa [mergeWidths] using ih ls i

/-- One more pass of the loop body extends the merge by one element. -/
theorem widthStep_merge (ls : List Nat) (n : Nat) (hn : n < ls.length) (ws : List Nat) :
    (if (mergeWidths ws (ls.take n)).length ≤ n then mergeWidths ws (ls.take n) ++ [ls.getD n 0]
      else if (mergeWidths ws (ls.take n)).getD n 0 < ls.getD n 0 then
        (mergeWidths ws (ls.take n)).set n (ls.getD n 0)
      else mergeWidths ws (ls.take n)) = mergeWidths ws (ls.take (n + 1)) := by
  induction n generalizing ls ws with
  | zero =>
    cases ls with
    | nil => simp at hn
    | cons l ls =>
      cases ws with
      | nil => simp [mergeWidths]
      | cons w ws =>
        simp only [List.take_zero, mergeWidths_nil_right, List.length_cons, Nat.le_zero_eq,
          Nat.add_one_ne_zero, if_false, List.getD_cons_zero, List.set_cons_zero,
          List.take_succ_cons, mergeWidths]
        split
        · rw [Nat.max_eq_right (by omega)]
        · rw [Nat.max_eq_left (by omega)]
  | succ n ih =>
    cases ls with
    | nil => simp at hn
    | cons l ls =>
      have hn2 : n < ls.length := by simpa using hn
      cases ws with
      | nil =>
        have h1 : (l :: List.take n ls).length ≤ n + 1 := by simp
        simp only [List.take_succ_cons, mergeWidths, h1, if_true, List.getD_cons_succ]
        rw [List.take_succ, List.getD_eq_getElem?_getD]
        simp [List.getElem?_eq_getElem hn2]
      | cons w ws =>
        have := ih ls hn2 ws
        simp only [List.take_succ_cons, mergeWidths, List.length_cons, Nat.add_le_add_iff_right,
          List.getD_cons_succ, List.set_cons_succ] at this ⊢
        rw [← this]
        split
        · rfl
        · split <;> rfl

theorem len_getD (elems : List GoString) (i : Nat) :
    len (elems.getD i []) = (elems.map len).getD i 0 := by
  simp only [List.getD_eq_getElem?_getD, List.getElem?_map]
  cases elems[i]? <;> simp [len]

theorem foldl_widthStep (elems : List GoString) (ws : List Nat) (n : Nat)
    (hn : n ≤ elems.length) :
    (List.range n).foldl (widthStep elems) ws = mergeWidths ws ((elems.map len).take n) := by
  induction n with
  | zero => simp [mergeWidths_nil_right]
  | succ n ih =>
    rw [List.range_succ, List.foldl_append, ih (by omega)]
    simp only [List.foldl_cons, List.foldl_nil, widthStep, len_getD]
    exact widthStep_merge (elems.map len) n (by simpa using hn) ws

theorem updateWidths_eq (elems : List GoString) (ws : List Nat) :
    updateWidths elems ws = mergeWidths ws (elems.map len) := by
  unfold updateWidths
  rw [foldl_widthStep elems ws elems.length (Nat.le_refl _)]
  rw [List.take_of_length_le (by simp)]

theorem widthsFrom_cons (delim : GoString) (ws : List Nat) (l : GoString)
    (lines : List GoString) :
    widthsFrom delim ws (l :: lines)
      = widthsFrom delim (mergeWidths ws ((getElementsFromLine l delim).map len)) lines := by
  simp [widthsFrom, updateWidths_eq]

theorem widthsFrom_length (delim : GoString) (ws : List Nat) (lines : List GoString) :
    (widthsFrom delim ws lines).length
      = max ws.length ((lines.map fun l => (getElementsFromLine l delim).length).foldr max 0) := by
  induction lines generalizing ws with
  | nil => simp [widthsFrom]
  | cons l lines ih =>
    rw [widthsFrom_cons, ih, mergeWidths_length]
    simp [Nat.max_assoc]

/-- Entries of the start vector are only ever raised. -/
theorem widthsFrom_mono (delim : GoString) (ws : List Nat) (lines : List GoString) (i w : Nat)
    (h : ws[i]? = some w) : ∃ w2, (widthsFrom delim ws lines)[i]? = some w2 ∧ w ≤ w2 := by
  induction lines generalizing ws w with
  | nil => exact ⟨w, by simpa [widthsFrom] using h, Nat.le_refl _⟩
  | cons l lines ih =>
    rw [widthsFrom_cons]
    have hm := mergeWidths_getElem? ws ((getElementsFromLine l delim).map len) i
    rw [h] at hm
    cases hl : ((getElementsFromLine l delim).map len)[i]? with
    | none =>
      rw [hl] at hm
      exact ih _ w hm
    | some x =>
      rw [hl] at hm
      obtain ⟨w2, h2, hle⟩ := ih _ _ hm
      exact ⟨w2, h2, by omega⟩

theorem widthsFrom_ge (delim : GoString) (ws : List Nat) (lines : List GoString)
    (l : GoString) (hl : l ∈ lines) (i : Nat) (f : GoString)
    (hf : (getElementsFromLine l delim)[i]? = some f) :
    ∃ w, (widthsFrom delim ws lines)[i]? = some w ∧ len f ≤ w := by
  induction lines generalizing ws with
  | nil => simp at hl
  | cons l2 lines ih =>
    rw [widthsFrom_cons]
    rcases List.mem_cons.mp hl with h | h
    · subst h
      have hm := mergeWidths_getElem? ws ((getElementsFromLine l delim).map len) i
      simp only [List.getElem?_map, hf, Option.map_some'] at hm
      cases hw : ws[i]? with
      | none =>
        rw [hw] at hm
        exact widthsFrom_mono delim _ lines i _ hm
      | some x =>
        rw [hw] at hm
        obtain ⟨w2, h2, hle⟩ := widthsFrom_mono delim _ lines i _ hm
        exact ⟨w2, h2, by omega⟩
    · exact ih _ h

/-- Every entry is an entry of the start vector or the length of a field. -/
theorem widthsFrom_attained (delim : GoString) (ws : List Nat) (lines : List GoString)
    (i w : Nat) (h : (widthsFrom delim ws lines)[i]? = some w) :
    ws[i]? = some w ∨
      ∃ l ∈ lines, ∃ f : GoString, (getElementsFromLine l delim)[i]? = some f ∧ len f = w := by
  induction lines generalizing ws with
  | nil => left; simpa [widthsFrom] using h
  | cons l lines ih =>
    rw [widthsFrom_cons] at h
    rcases ih _ h with h1 | ⟨l2, hl2, f, hf, hlen⟩
    · have hm := mergeWidths_getElem? ws ((getElementsFromLine l delim).map len) i
      rw [h1] at hm
      simp only [List.getElem?_map] at hm
      cases hw : ws[i]? with
      | none =>
        cases he : (getElementsFromLine l delim)[i]? with
        | none => simp [hw, he] at hm
        | some f =>
          simp only [hw, he, Option.map_some', Option.some.injEq] at hm
          exact Or.inr ⟨l, List.mem_cons_self _ _, f, he, hm.symm⟩
      | some x =>
        cases he : (getElementsFromLine l delim)[i]? with
        | none =>
          simp only [hw, he, Option.map_none', Option.some.injEq] at hm
          left; rw [hm]
        | some f =>
          simp only [hw, he, Option.map_some', Option.some.injEq] at hm
          rcases Nat.le_total x (len f) with hle | hle
          · rw [Nat.max_eq_right hle] at hm
            exact Or.inr ⟨l, List.mem_cons_self _ _, f, he, hm.symm⟩
          · rw [Nat.max_eq_left hle] at hm
            left; rw [hm]
    · exact Or.inr ⟨l2, List.mem_cons_of_mem _ hl2, f, hf, hlen⟩

theorem getWidthsFromLines_eq (lines : List GoString) (delim : GoString) :
    getWidthsFromLines lines delim = widthsFrom delim [] lines := rfl

/-- Every entry of the width vector bounds the fields of its column. -/
theorem getWidthsFromLines_bound (lines : List GoString) (delim : GoString) (l : GoString)
    (hl : l ∈ lines) (i : Nat) (f : GoString)
    (hf : (getElementsFromLine l delim)[i]? = some f) :
    ∃ w, (getWidthsFromLines lines delim)[i]? = some w ∧ len f ≤ w :=
  widthsFrom_ge delim [] lines l hl i f hf

/-- The width vector has an entry for every field of every line. -/
theorem getWidthsFromLines_length_ge (lines : List GoString) (delim : GoString) (l : GoString)
    (hl : l ∈ lines) :
    (getElementsFromLine l delim).length ≤ (getWidthsFromLines lines delim).length := by
  by_contra hlt
  have hlt : (getWidthsFromLines lines delim).length < (getElementsFromLine l delim).length := by
    omega
  obtain ⟨w, hw, -⟩ := getWidthsFromLines_bound lines delim l hl _ _
    (List.getElem?_eq_getElem hlt)
  have := List.getElem?_eq_none (Nat.le_refl (getWidthsFromLines lines delim).length)
  rw [this] at hw
  exact Option.noConfusion hw

/-- C3. For every list of lines and every delimiter, the vector returned by
`getWidthsFromLines` is as long as the largest field count of a line (0 without
lines, hence at least the field count of every line), and its entry `i` is the
maximum of `len` over the trimmed `i`-th fields of the lines that have one: it
bounds the length of each of them and is the length of one of them. -/
theorem getWidthsFromLines_spec (lines : List GoString) (delim : GoString) :
    (getWidthsFromLines lines delim).length
        = (lines.map fun l => (getElementsFromLine l delim).length).foldr max 0 ∧
      (∀ l ∈ lines, (getElementsFromLine l delim).length
        ≤ (getWidthsFromLines lines delim).length) ∧
      (∀ l ∈ lines, ∀ (i : Nat) (f : GoString), (getElementsFromLine l delim)[i]? = some f →
        ∃ w, (getWidthsFromLines lines delim)[i]? = some w ∧ len f ≤ w) ∧
      (∀ i w : Nat, (getWidthsFromLines lines delim)[i]? = some w →
        ∃ l ∈ lines, ∃ f : GoString, (getElementsFromLine l delim)[i]? = some f ∧ len f = w) := by
  refine ⟨?_, ?_, ?_, ?_⟩
  · rw [getWidthsFromLines_eq]
    simp [widthsFrom_length]
  · intro l hl
    exact getWidthsFromLines_length_ge lines delim l hl
  · intro l hl i f hf
    exact getWidthsFromLines_bound lines delim l hl i f hf
  · intro i w hw
    rw [getWidthsFromLines_eq] at hw
    rcases widthsFrom_attained delim [] lines i w hw with h | h
    · simp at h
    · exact h

/-! ## The format string and its rendering -/

theorem digitsRev_fuel (fuel fuel2 n : Nat) (h : n < fuel) (h2 : n < fuel2) :
    digitsRev fuel n = digitsRev fuel2 n := by
  induction fuel generalizing n fuel2 with
  | zero => omega
  | succ fuel ih =>
    cases fuel2 with
    | zero => omega
    | succ fuel2 =>
      simp only [digitsRev]
      split
      · rfl
      · rw [ih fuel2 (n / 10) (by omega) (by omega)]

theorem natDigits_lt (n : Nat) (h : n < 10) : natDigits n = [digitChar n] := by
  simp [natDigits, digitsRev, h]

theorem natDigits_ge (n : Nat) (h : 10 ≤ n) :
    natDigits n = natDigits (n / 10) ++ [digitChar (n % 10)] := by
  have hn : ¬ n < 10 := by omega
  have e1 : digitsRev (n + 1) n = digitChar (n % 10) :: digitsRev n (n / 10) := by
    rw [digitsRev, if_neg hn]
  unfold natDigits
  rw [e1, List.reverse_cons, digitsRev_fuel n (n / 10 + 1) (n / 10) (by omega) (by omega)]

theorem digitChar_props : ∀ d, d < 10 →
    isDigit (digitChar d) = true ∧ digitVal (digitChar d) = d ∧ digitChar d ≠ '-' ∧
      digitChar d ≠ '%' ∧ (digitChar d = '0' → d = 0) := by
  decide

theorem widthLimit_eq : widthLimit = 1000000 := rfl

/-- One more digit of a width is read when the value so far is not too large. -/
theorem doPrintf_width_digit (m z : Bool) (w d : Nat) (hw : w ≤ widthLimit) (hd : d < 10)
    (tail : GoString) (args : List GoArg) :
    doPrintf (.width m z w) (digitChar d :: tail) args
      = doPrintf (.width m z (w * 10 + d)) tail args := by
  obtain ⟨h1, h2, -, -, -⟩ := digitChar_props d hd
  simp [doPrintf, h1, h2, Nat.not_lt.mpr hw]

/-- One more digit after a value that is too large ends the formatting. -/
theorem doPrintf_width_digit_tooLarge (m z : Bool) (w d : Nat) (hw : widthLimit < w)
    (hd : d < 10) (tail : GoString) (args : List GoArg) :
    doPrintf (.width m z w) (digitChar d :: tail) args
      = some ("%!(NOVERB)".toList ++ extraArgs args) := by
  obtain ⟨h1, -, -, -, -⟩ := digitChar_props d hd
  simp [doPrintf, h1, hw]

/-- The decimal digits of a width below 10000010 are read in full. -/
theorem doPrintf_flags_natDigits (m z : Bool) (n : Nat) (hn : 1 ≤ n) (hb : n < 10000010)
    (tail : GoString) (args : List GoArg) :
    doPrintf (.flags m z) (natDigits n ++ tail) args = doPrintf (.width m z n) tail args := by
  induction n using Nat.strong_induction_on generalizing tail with
  | _ n ih =>
    rcases Nat.lt_or_ge n 10 with h | h
    · obtain ⟨h1, h2, h3, -, h5⟩ := digitChar_props n h
      have h0 : digitChar n ≠ '0' := fun h0 => by have := h5 h0; omega
      rw [natDigits_lt n h]
      simp [doPrintf, h1, h2, h3, h0]
    · rw [natDigits_ge n h, List.append_assoc,
        ih (n / 10) (by omega) (by omega) (by omega)]
      rw [List.singleton_append, doPrintf_width_digit m z _ _
        (by rw [widthLimit_eq]; omega) (Nat.mod_lt _ (by omega))]
      congr 2
      omega

/-- The decimal digits of a width from 10000010 on end the formatting: what
follows them is not read and every operand left is listed as extra. -/
theorem doPrintf_flags_natDigits_tooLarge (m z : Bool) (n : Nat) (hb : 10000010 ≤ n)
    (tail : GoString) (args : List GoArg) :
    doPrintf (.flags m z) (natDigits n ++ tail) args
      = some ("%!(NOVERB)".toList ++ extraArgs args) := by
  induction n using Nat.strong_induction_on generalizing tail with
  | _ n ih =>
    rw [natDigits_ge n (by omega), List.append_assoc, List.singleton_append]
    rcases Nat.lt_or_ge (n / 10) 10000010 with h | h
    · rw [doPrintf_flags_natDigits m z (n / 10) (by omega) h,
        doPrintf_width_digit_tooLarge m z _ _ (by rw [widthLimit_eq]; omega)
          (Nat.mod_lt _ (by omega))]
    · exact ih (n / 10) (by omega) h _

theorem doPrintf_columnDirective (w : Nat) (hw : w < 10000010) (rest : GoString) (f : GoString)
    (args : List GoArg) :
    doPrintf .text (columnDirective w ++ rest) (.str f :: args)
      = (doPrintf .text rest args).map (padRight w f ++ ·) := by
  rcases Nat.eq_zero_or_pos w with h | h
  · subst h
    simp [columnDirective, natDigits, digitsRev, digitChar, doPrintf, isDigit, directive,
      unmodelled, printArg, padString, padRight]
  · have e : columnDirective w ++ rest = '%' :: '-' :: (natDigits w ++ 's' :: rest) := by
      simp [columnDirective]
    have e1 : ∀ t : GoString, doPrintf .text ('%' :: '-' :: t) (.str f :: args)
        = doPrintf (.flags true false) t (.str f :: args) := by
      intro t
      simp [doPrintf]
    rw [e, e1, doPrintf_flags_natDigits true false w h hw]
    simp [doPrintf, isDigit, directive, unmodelled, printArg, padString, padRight]

/-- The directive of a column of width 10000010 or more makes `fmt` stop: it
writes `%!(NOVERB)`, reads nothing of what follows and lists the operands. -/
theorem doPrintf_columnDirective_tooLarge (w : Nat) (hw : 10000010 ≤ w) (rest : GoString)
    (args : List GoArg) :
    doPrintf .text (columnDirective w ++ rest) args
      = some ("%!(NOVERB)".toList ++ extraArgs args) := by
  have e : columnDirective w ++ rest = '%' :: '-' :: (natDigits w ++ 's' :: rest) := by
    simp [columnDirective]
  have e1 : ∀ t : GoString, doPrintf .text ('%' :: '-' :: t) args
      = doPrintf (.flags true false) t args := by
    intro t
    simp [doPrintf]
  rw [e, e1, doPrintf_flags_natDigits_tooLarge true false w hw]

theorem sprintfColumn_eq (w : Nat) (space : GoString) :
    Sprintf "%%-%ds%s".toList [.int w, .str space] = some (columnDirective w ++ space) := by
  simp [Sprintf, doPrintf, isDigit, directive, unmodelled, printArg, padString, extraArgs,
    columnDirective, itoa]

theorem doPrintf_literal (lit rest : GoString) (args : List GoArg) (h : '%' ∉ lit) :
    doPrintf .text (lit ++ rest) args = (doPrintf .text rest args).map (lit ++ ·) := by
  induction lit with
  | nil => simp
  | cons c cs ih =>
    have hc : c ≠ '%' := fun hc => h (by simp [hc])
    have hcs : '%' ∉ cs := fun hcs => h (List.mem_cons_of_mem _ hcs)
    simp [doPrintf, hc, ih hcs, Option.map_map, Function.comp_def]

theorem doPrintf_last (f : GoString) :
    doPrintf .text "%s\n".toList [.str f] = some (f ++ "\n".toList) := by
  simp [doPrintf, isDigit, directive, unmodelled, printArg, padString, extraArgs]

theorem sprintfColumn_def (w : Nat) (space : GoString) :
    sprintfColumn w space = columnDirective w ++ space := by
  unfold sprintfColumn
  rw [sprintfColumn_eq]
  rfl

theorem getStringFormat_eq (widths : List Nat) (columns : Nat) (space : GoString) :
    getStringFormat widths columns space
      = ((List.range (min columns widths.length)).map fun i =>
          if i = columns - 1 then "%s\n".toList
          else columnDirective (widths.getD i 0) ++ space).flatten := by
  unfold getStringFormat
  rw [← List.nil_append (List.flatten _), ← foldl_append_join]
  congr 1
  funext acc i
  split <;> simp [sprintfColumn_def]

theorem getStringFormat_zero (widths : List Nat) (space : GoString) :
    getStringFormat widths 0 space = [] := by
  simp [getStringFormat_eq]

theorem getStringFormat_one (w : Nat) (widths : List Nat) (space : GoString) :
    getStringFormat (w :: widths) 1 space = "%s\n".toList := by
  simp [getStringFormat_eq, List.range_succ]

theorem getStringFormat_cons (w : Nat) (widths : List Nat) (c : Nat) (space : GoString) :
    getStringFormat (w :: widths) (c + 2) space
      = columnDirective w ++ (space ++ getStringFormat widths (c + 1) space) := by
  have hmin : min (c + 2) (w :: widths).length = min (c + 1) widths.length + 1 := by
    simp only [List.length_cons]; omega
  rw [getStringFormat_eq, getStringFormat_eq, hmin, List.range_succ_eq_map]
  simp [Function.comp_def]

theorem renderedLine_nil (widths : List Nat) (glue : GoString) :
    renderedLine widths glue [] = [] := by
  simp [renderedLine]

theorem renderedLine_one (widths : List Nat) (glue f : GoString) :
    renderedLine widths glue [f] = f ++ "\n".toList := by
  simp [renderedLine]

theorem renderedLine_cons (w : Nat) (widths : List Nat) (glue f f2 : GoString)
    (fs : List GoString) :
    renderedLine (w :: widths) glue (f :: f2 :: fs)
      = padRight w f ++ (glue ++ renderedLine widths glue (f2 :: fs)) := by
  simp [renderedLine, List.range_succ_eq_map, Function.comp_def, List.getLast?_cons_cons]

/-- The call `fmt.Sprintf(stringfmt, elems...)` of `Format` stays inside the
modelled fragment and yields the rendered line, when the glue has no percent
sign, every field has a width and the widths of the padded columns are below
10000010. -/
theorem Sprintf_getStringFormat (glue : GoString) (hg : '%' ∉ glue) (fields : List GoString)
    (widths : List Nat) (hw : fields.length ≤ widths.length)
    (hb : ∀ i, i + 1 < fields.length → widths.getD i 0 < 10000010) :
    Sprintf (getStringFormat widths fields.length glue) (fields.map GoArg.str)
      = some (renderedLine widths glue fields) := by
  induction fields generalizing widths with
  | nil => simp [getStringFormat_zero, renderedLine_nil, Sprintf, doPrintf, extraArgs]
  | cons f fs ih =>
    cases widths with
    | nil => simp at hw
    | cons w widths =>
      cases fs with
      | nil =>
        rw [List.length_singleton, getStringFormat_one, renderedLine_one]
        exact doPrintf_last f
      | cons f2 fs =>
        have hw2 : (f2 :: fs).length ≤ widths.length := by simpa using hw
        have hw0 : w < 10000010 := by simpa using hb 0 (by simp)
        have hb2 : ∀ i, i + 1 < (f2 :: fs).length → widths.getD i 0 < 10000010 := by
          intro i hi
          simpa using hb (i + 1) (by simpa using hi)
        have ih2 := ih widths hw2 hb2
        simp only [Sprintf, List.length_cons, List.map_cons] at ih2 ⊢
        rw [getStringFormat_cons, renderedLine_cons, doPrintf_columnDirective _ hw0,
          doPrintf_literal _ _ _ hg, ih2]
        rfl

theorem sprintfElems_getStringFormat (glue : GoString) (hg : '%' ∉ glue)
    (fields : List GoString) (widths : List Nat) (hw : fields.length ≤ widths.length)
    (hb : ∀ i, i + 1 < fields.length → widths.getD i 0 < 10000010) :
    sprintfElems (getStringFormat widths fields.length glue) fields
      = renderedLine widths glue fields := by
  simp [sprintfElems, Sprintf_getStringFormat glue hg fields widths hw hb]

theorem getElementsFromLine_eq (line delim : GoString) :
    getElementsFromLine line delim = (Split line delim).map TrimSpace := by
  simp [getElementsFromLine, foldl_append_singleton]

/-! ## Lines of the output -/

theorem rdropWhile_append_of_all (p : Char → Bool) (x y : GoString) (h : ∀ c ∈ y, p c = true) :
    (x ++ y).rdropWhile p = x.rdropWhile p := by
  simp only [List.rdropWhile, List.reverse_append]
  rw [List.dropWhile_append_of_pos (by simpa using h)]

theorem rdropWhile_append_of_ne (p : Char → Bool) (x y : GoString)
    (h : y.rdropWhile p ≠ []) : (x ++ y).rdropWhile p = x ++ y.rdropWhile p := by
  simp only [List.rdropWhile, List.reverse_append, List.dropWhile_append] at h ⊢
  have : (List.dropWhile p y.reverse).isEmpty = false := by
    cases hd : List.dropWhile p y.reverse with
    | nil => simp [hd] at h
    | cons a b => rfl
  simp [this]

theorem Split_newline_cons (t : GoString) :
    Split ('\n' :: t) "\n".toList = [] :: Split t "\n".toList := by
  show Split ('\n' :: t) ['\n'] = [] :: Split t ['\n']
  simp [Split, splitLoop, List.isPrefixOf]

theorem Split_other_cons (c : Char) (hc : c ≠ '\n') (t : GoString) :
    Split (c :: t) "\n".toList = consHead c (Split t "\n".toList) := by
  show Split (c :: t) ['\n'] = consHead c (Split t ['\n'])
  have : ('\n' == c) = false := by simpa using fun h => hc h.symm
  simp [Split, splitLoop, List.isPrefixOf, this]

theorem Split_line_append (b t : GoString) (hb : '\n' ∉ b) :
    Split (b ++ '\n' :: t) "\n".toList = b :: Split t "\n".toList := by
  induction b with
  | nil => exact Split_newline_cons t
  | cons c b ih =>
    have hc : c ≠ '\n' := fun hc => hb (by simp [hc])
    have hb2 : '\n' ∉ b := fun h => hb (List.mem_cons_of_mem _ h)
    rw [List.cons_append, Split_other_cons c hc, ih hb2]
    rfl

theorem Split_line (b : GoString) (hb : '\n' ∉ b) : Split b "\n".toList = [b] := by
  induction b with
  | nil => rfl
  | cons c b ih =>
    have hc : c ≠ '\n' := fun hc => hb (by simp [hc])
    have hb2 : '\n' ∉ b := fun h => hb (List.mem_cons_of_mem _ h)
    rw [Split_other_cons c hc, ih hb2]
    rfl

theorem mem_consHead (c : Char) (l : List GoString) (piece : GoString)
    (h : piece ∈ consHead c l) :
    (∃ f, piece = c :: f ∧ (f ∈ l ∨ (l = [] ∧ f = []))) ∨ piece ∈ l := by
  cases l with
  | nil => left; exact ⟨[], by simpa [consHead] using h, Or.inr ⟨rfl, rfl⟩⟩
  | cons f fs =>
    simp only [consHead, List.mem_cons] at h
    rcases h with h | h
    · left; exact ⟨f, h, Or.inl (List.mem_cons_self _ _)⟩
    · right; exact List.mem_cons_of_mem _ h

theorem splitLoop_mem (sep s : GoString) (skip : Nat) (piece : GoString)
    (h : piece ∈ splitLoop sep s skip) (c : Char) (hc : c ∈ piece) : c ∈ s := by
  induction s generalizing skip piece with
  | nil => simp [splitLoop] at h; subst h; simp at hc
  | cons c0 cs ih =>
    cases skip with
    | succ k =>
      rw [splitLoop] at h
      exact List.mem_cons_of_mem _ (ih k piece h hc)
    | zero =>
      rw [splitLoop] at h
      split at h
      · rcases List.mem_cons.mp h with h | h
        · subst h; simp at hc
        · exact List.mem_cons_of_mem _ (ih _ piece h hc)
      · rcases mem_consHead c0 _ piece h with ⟨f, hf, hmem⟩ | hmem
        · subst hf
          rcases List.mem_cons.mp hc with hc | hc
          · simp [hc]
          · rcases hmem with hmem | ⟨-, hf⟩
            · exact List.mem_cons_of_mem _ (ih 0 f hmem hc)
            · subst hf; simp at hc
        · exact List.mem_cons_of_mem _ (ih 0 piece hmem hc)

theorem Split_mem (s sep piece : GoString) (h : piece ∈ Split s sep) (c : Char)
    (hc : c ∈ piece) : c ∈ s := by
  unfold Split at h
  split at h
  · obtain ⟨c2, hc2, rfl⟩ := List.mem_map.mp h
    simp at hc
    subst hc
    exact hc2
  · exact splitLoop_mem sep s 0 piece h c hc

theorem TrimSpace_mem (s : GoString) (c : Char) (h : c ∈ TrimSpace s) : c ∈ s :=
  (List.dropWhile_suffix isSpace).mem ((List.rdropWhile_prefix isSpace _).mem h)

theorem getElementsFromLine_mem (line delim f : GoString)
    (h : f ∈ getElementsFromLine line delim) (c : Char) (hc : c ∈ f) : c ∈ line := by
  rw [getElementsFromLine_eq] at h
  obtain ⟨piece, hp, rfl⟩ := List.mem_map.mp h
  exact Split_mem line delim piece hp c (TrimSpace_mem piece c hc)

theorem getElementsFromLine_trimmed (line delim f : GoString)
    (h : f ∈ getElementsFromLine line delim) :
    (∀ c, f.head? = some c → isSpace c = false) ∧
      (∀ c, f.getLast? = some c → isSpace c = false) := by
  rw [getElementsFromLine_eq] at h
  obtain ⟨piece, -, rfl⟩ := List.mem_map.mp h
  exact ⟨TrimSpace_head piece, TrimSpace_getLast piece⟩

theorem runeCount_le_len (s : GoString) : runeCount s ≤ len s := by
  induction s with
  | nil => simp [runeCount, len]
  | cons c cs ih =>
    have : 1 ≤ runeLen c := by unfold runeLen; split_ifs <;> omega
    simp only [runeCount, len, List.length_cons, List.map_cons, List.sum_cons] at ih ⊢
    omega

theorem columnOffset_succ (w : Nat) (widths : List Nat) (glue : GoString) (j : Nat) :
    columnOffset (w :: widths) glue (j + 1) = w + runeCount glue + columnOffset widths glue j := by
  simp [columnOffset, List.range_succ_eq_map, Function.comp_def]

theorem renderedLine_head (widths : List Nat) (glue f : GoString) (fs : List GoString) :
    ∃ t, renderedLine widths glue (f :: fs) = f ++ t := by
  cases fs with
  | nil => exact ⟨_, renderedLine_one widths glue f⟩
  | cons f2 fs =>
    refine ⟨List.replicate (widths.getD 0 0 - runeCount f) ' ' ++ (glue ++
      (renderedLine widths.tail glue (f2 :: fs))), ?_⟩
    cases widths with
    | nil =>
      simp [renderedLine, List.range_succ_eq_map, Function.comp_def, List.getLast?_cons_cons,
        padRight]
    | cons w widths => simp [renderedLine_cons, padRight]

/-- A rendered line is a body without newline followed by the newline, and the
body carries field `j` at the offset of column `j`. -/
theorem renderedLine_body (glue : GoString) (hgn : '\n' ∉ glue) (fs : List GoString)
    (widths : List Nat) (hne : fs ≠ []) (hlen : fs.length ≤ widths.length)
    (hnl : ∀ f ∈ fs, '\n' ∉ f)
    (hw : ∀ (i : Nat) (f : GoString), fs[i]? = some f → runeCount f ≤ widths.getD i 0) :
    ∃ body, renderedLine widths glue fs = body ++ ['\n'] ∧ '\n' ∉ body ∧
      ∀ (j : Nat) (f : GoString), fs[j]? = some f →
        ∃ pre post, body = pre ++ f ++ post ∧ pre.length = columnOffset widths glue j := by
  induction fs generalizing widths with
  | nil => exact absurd rfl hne
  | cons f fs ih =>
    cases widths with
    | nil => simp at hlen
    | cons w widths =>
      cases fs with
      | nil =>
        refine ⟨f, renderedLine_one _ glue f, hnl f (List.mem_cons_self _ _), ?_⟩
        intro j f2 hj
        cases j with
        | zero =>
          simp only [List.getElem?_cons_zero, Option.some.injEq] at hj
          subst hj
          exact ⟨[], [], by simp, by simp [columnOffset]⟩
        | succ j => simp at hj
      | cons f2 fs =>
        obtain ⟨body, hbody, hnb, hcol⟩ := ih widths (by simp) (by simpa using hlen)
          (fun g hg => hnl g (List.mem_cons_of_mem _ hg))
          (fun i g hi => by simpa using hw (i + 1) g (by simpa using hi))
        have hf : runeCount f ≤ w := by simpa using hw 0 f (by simp)
        refine ⟨padRight w f ++ (glue ++ body), ?_, ?_, ?_⟩
        · rw [renderedLine_cons, hbody]
          simp
        · have hfn := hnl f (List.mem_cons_self _ _)
          simp only [padRight, List.mem_append, List.mem_replicate, not_or]
          exact ⟨⟨hfn, fun h => absurd h.2 (by decide)⟩, hgn, hnb⟩
        · intro j g hj
          cases j with
          | zero =>
            simp only [List.getElem?_cons_zero, Option.some.injEq] at hj
            subst hj
            exact ⟨[], List.replicate (w - runeCount f) ' ' ++ (glue ++ body),
              by simp [padRight], by simp [columnOffset]⟩
          | succ j =>
            obtain ⟨pre, post, hpp, hpre⟩ := hcol j g (by simpa using hj)
            refine ⟨padRight w f ++ (glue ++ pre), post, by simp [hpp], ?_⟩
            rw [columnOffset_succ, ← hpre]
            simp only [padRight, runeCount, List.length_append, List.length_replicate] at hf ⊢
            omega

theorem rdropWhile_keeps (pre f post : GoString) (c : Char) (hlast : f.getLast? = some c)
    (hc : isSpace c = false) :
    ∃ post2, (pre ++ f ++ post).rdropWhile isSpace = pre ++ f ++ post2 := by
  by_cases hp : post.rdropWhile isSpace = []
  · refine ⟨[], ?_⟩
    rw [rdropWhile_append_of_all _ _ _ (List.rdropWhile_eq_nil_iff.mp hp), List.append_nil,
      List.rdropWhile_eq_self_iff]
    intro hl
    have hfne : f ≠ [] := by
      intro h0
      rw [h0] at hlast
      simp at hlast
    rw [List.getLast_append_of_ne_nil hfne]
    rw [List.getLast?_eq_getLast _ hfne] at hlast
    simp only [Option.some.injEq] at hlast
    rw [hlast, hc]
    simp
  · exact ⟨post.rdropWhile isSpace, rdropWhile_append_of_ne _ _ _ hp⟩

/-- Splitting the right-trimmed concatenation of newline-terminated rows gives
back, at index `r`, row `r` up to at least the end of any of its parts that
ends in a code point that is not white space. -/
theorem Split_trimmed_rows (rows : List GoString) (hrows : ∀ b ∈ rows, '\n' ∉ b) (r : Nat)
    (b pre f post : GoString) (hr : rows[r]? = some b) (hb : b = pre ++ f ++ post) (c : Char)
    (hlast : f.getLast? = some c) (hc : isSpace c = false) :
    ∃ post2, (Split ((rows.map (· ++ ['\n'])).flatten.rdropWhile isSpace) "\n".toList).getD r []
      = pre ++ f ++ post2 := by
  induction rows generalizing r with
  | nil => simp at hr
  | cons b0 rows ih =>
    have hb0 : '\n' ∉ b0 := hrows b0 (List.mem_cons_self _ _)
    have hrows2 : ∀ b ∈ rows, '\n' ∉ b := fun x hx => hrows x (List.mem_cons_of_mem _ hx)
    simp only [List.map_cons, List.flatten_cons]
    by_cases hall : ((rows.map (· ++ ['\n'])).flatten).rdropWhile isSpace = []
    · have hall2 := List.rdropWhile_eq_nil_iff.mp hall
      rw [rdropWhile_append_of_all _ _ _ hall2, List.rdropWhile_concat_pos _ _ _ (by decide)]
      cases r with
      | zero =>
        simp only [List.getElem?_cons_zero, Option.some.injEq] at hr
        subst hr
        obtain ⟨post2, hp2⟩ := rdropWhile_keeps pre f post c hlast hc
        refine ⟨post2, ?_⟩
        have hnl : '\n' ∉ b0.rdropWhile isSpace :=
          fun h => hb0 ((List.rdropWhile_prefix isSpace b0).mem h)
        rw [Split_line _ hnl, hb, hp2]
        rfl
      | succ r =>
        exfalso
        simp only [List.getElem?_cons_succ] at hr
        have hbmem : b ∈ rows := List.getElem?_mem hr
        have hcf : c ∈ f := List.mem_of_mem_getLast? hlast
        have hcb : c ∈ b := by rw [hb]; simp [hcf]
        have : isSpace c = true := by
          apply hall2
          simp only [List.mem_flatten, List.mem_map]
          exact ⟨b ++ ['\n'], ⟨b, hbmem, rfl⟩, by simp [hcb]⟩
        rw [hc] at this
        exact Bool.noConfusion this
    · rw [rdropWhile_append_of_ne _ _ _ hall, List.append_assoc, List.singleton_append,
        Split_line_append _ _ hb0]
      cases r with
      | zero =>
        simp only [List.getElem?_cons_zero, Option.some.injEq] at hr
        subst hr
        exact ⟨post, by rw [hb]; rfl⟩
      | succ r =>
        simp only [List.getElem?_cons_succ] at hr
        obtain ⟨post2, hp2⟩ := ih hrows2 r hr
        exact ⟨post2, by simpa using hp2⟩


theorem splitLoop_ne_nil (sep s : GoString) (skip : Nat) : splitLoop sep s skip ≠ [] := by
  induction s generalizing skip with
  | nil => simp [splitLoop]
  | cons c cs ih =>
    cases skip with
    | succ k => rw [splitLoop]; exact ih k
    | zero =>
      rw [splitLoop]
      split
      · simp
      · cases h : splitLoop sep cs 0 <;> simp [consHead]

/-- With a non-empty delimiter every line has at least one field. -/
theorem getElementsFromLine_ne_nil (line delim : GoString) (hd : delim ≠ []) :
    getElementsFromLine line delim ≠ [] := by
  rw [getElementsFromLine_eq]
  simp only [ne_eq, List.map_eq_nil_iff, Split, hd, if_false]
  exact splitLoop_ne_nil delim line 0

/-! ## Entry points -/

/-- When every trimmed field is shorter than 10000010 bytes, so is every width. -/
theorem getWidthsFromLines_lt (lines : List GoString) (delim : GoString)
    (hshort : ∀ l ∈ lines, ∀ f ∈ getElementsFromLine l delim, len f < 10000010) (i : Nat) :
    (getWidthsFromLines lines delim).getD i 0 < 10000010 := by
  rw [List.getD_eq_getElem?_getD]
  cases hw : (getWidthsFromLines lines delim)[i]? with
  | none => simp
  | some w =>
    rw [getWidthsFromLines_eq] at hw
    rcases widthsFrom_attained delim [] lines i w hw with h | h
    · simp at h
    · obtain ⟨l, hl, f, hf, hlen⟩ := h
      simpa [hlen] using hshort l hl f (List.getElem?_mem hf)

/-- The rendering loop of `Format` under a glue without percent sign, when the
widths of the padded columns are below 10000010: the concatenation of the
rendered lines. -/
theorem renderLoop_eq_of_widths (config : Config) (lines : List GoString)
    (hg : '%' ∉ config.Glue)
    (hb : ∀ l ∈ lines, ∀ i, i + 1 < (getElementsFromLine l config.Delim).length →
      (getWidthsFromLines lines config.Delim).getD i 0 < 10000010) :
    lines.foldl (fun result line =>
        result ++ sprintfElems
          (getStringFormat (getWidthsFromLines lines config.Delim)
            (getElementsFromLine line config.Delim).length config.Glue)
          (getElementsFromLine line config.Delim)) []
      = (lines.map fun line =>
          renderedLine (getWidthsFromLines lines config.Delim) config.Glue
            (getElementsFromLine line config.Delim)).flatten := by
  rw [foldl_append_join, List.nil_append]
  congr 1
  apply List.map_congr_left
  intro line hline
  exact sprintfElems_getStringFormat config.Glue hg _ _
    (getWidthsFromLines_length_ge lines config.Delim line hline) (hb line hline)

/-- The rendering loop of `Format` under a glue without percent sign, when every
trimmed field is shorter than 10000010 bytes: the concatenation of the
rendered lines. -/
theorem renderLoop_eq (config : Config) (lines : List GoString) (hg : '%' ∉ config.Glue)
    (hshort : ∀ l ∈ lines, ∀ f ∈ getElementsFromLine l config.Delim, len f < 10000010) :
    lines.foldl (fun result line =>
        result ++ sprintfElems
          (getStringFormat (getWidthsFromLines lines config.Delim)
            (getElementsFromLine line config.Delim).length config.Glue)
          (getElementsFromLine line config.Delim)) []
      = (lines.map fun line =>
          renderedLine (getWidthsFromLines lines config.Delim) config.Glue
            (getElementsFromLine line config.Delim)).flatten := by
  exact renderLoop_eq_of_widths config lines hg
    (fun _ _ i _ => getWidthsFromLines_lt lines config.Delim hshort i)


theorem inputLines_str (s : GoString) : inputLines (.str s) = some (Split s "\n".toList) := by
  simp [inputLines, foldl_append_singleton (fun x : GoString => x)]

/-- C2. `Format` returns a non-nil error exactly when its input is neither a string
nor a list of strings, and then the returned string is empty; on a string or a
list of strings the error is nil, for every config and whatever `fmt.Sprintf`
produces in the rendering loop (`Format` is `FormatWith sprintfElems`). -/
theorem Format_error_iff (sprintf : GoString → List GoString → GoString) (input : Input)
    (config : Config) :
    ((FormatWith sprintf input config).2 ≠ none ↔
        (∀ s, input ≠ .str s) ∧ (∀ lines, input ≠ .strs lines)) ∧
      ((FormatWith sprintf input config).2 ≠ none → (FormatWith sprintf input config).1 = []) ∧
      (∀ s, (FormatWith sprintf (.str s) config).2 = none ∧ (Format (.str s) config).2 = none) ∧
      (∀ lines, (FormatWith sprintf (.strs lines) config).2 = none ∧
        (Format (.strs lines) config).2 = none) := by
  refine ⟨?_, ?_, ?_, ?_⟩
  · cases input <;> simp [FormatWith, inputLines]
  · cases input <;> simp [FormatWith, inputLines]
  · intro s; simp [Format, FormatWith, inputLines]
  · intro lines; simp [Format, FormatWith, inputLines]

/-- The rendering of `Format` on fields that `fmt` can pad.  For every config
whose `Glue` has no percent sign and every list of lines whose trimmed fields
are all shorter than 10000010 bytes, `Format` returns, with a nil error,
`TrimSpace` of the concatenation in input order of one rendered line per
input line (`renderedLine`, the padding being counted in runes as `fmt` does),
the widths being those of `getWidthsFromLines`. -/
theorem Format_renders_short (config : Config) (lines : List GoString)
    (hg : '%' ∉ config.Glue)
    (hshort : ∀ l ∈ lines, ∀ f ∈ getElementsFromLine l config.Delim, len f < 10000010) :
    Format (.strs lines) config
      = (TrimSpace (lines.map fun line =>
            renderedLine (getWidthsFromLines lines config.Delim) config.Glue
              (getElementsFromLine line config.Delim)).flatten, none) := by
  simp only [Format, FormatWith, inputLines]
  rw [renderLoop_eq config lines hg hshort]

/-- An instance of `Format_renders_short`: two lines with a padded and an overlong
first field, under a glue of two letters. -/
theorem Format_renders_short_example :
    Format (.strs ["a|b c".toList, " long |x|y".toList]) { Delim := "|".toList, Glue := "::".toList }
      = (TrimSpace (["a|b c".toList, " long |x|y".toList].map fun line =>
            renderedLine
              (getWidthsFromLines ["a|b c".toList, " long |x|y".toList] "|".toList) "::".toList
              (getElementsFromLine line "|".toList)).flatten, none) :=
  Format_renders_short { Delim := "|".toList, Glue := "::".toList }
    ["a|b c".toList, " long |x|y".toList] (by decide) (by decide)

/-- C4, as stated, fails in three ways, each on lines without newline and a glue
without percent sign.  The final `TrimSpace` strips the padding in front of the
first row when its first field is empty (`"|x"` above `"ab|y"`: `x` moves to
offset 0, which is not the aligned output that the comment on `Format`
announces); a glue holding a newline breaks a row in two; and with an empty
`Delim` an empty line has no field and yields no row at all, so the rows below
it move up. -/
theorem Format_aligned_stated_fails :
    ((∀ l ∈ ["|x".toList, "ab|y".toList], '\n' ∉ l) ∧ '%' ∉ DefaultConfig.Glue ∧
        ¬ ColumnAligned ["|x".toList, "ab|y".toList] DefaultConfig) ∧
      ((∀ l ∈ ["a|b".toList], '\n' ∉ l) ∧ '%' ∉ "\n".toList ∧
        ¬ ColumnAligned ["a|b".toList] { Delim := "|".toList, Glue := "\n".toList }) ∧
      ((∀ l ∈ ["a".toList, [], "b".toList], '\n' ∉ l) ∧ '%' ∉ "  ".toList ∧
        ¬ ColumnAligned ["a".toList, [], "b".toList] { Delim := [], Glue := "  ".toList }) := by
  refine ⟨⟨by decide, by decide, fun h => ?_⟩, ⟨by decide, by decide, fun h => ?_⟩,
    ⟨by decide, by decide, fun h => ?_⟩⟩
  · exact absurd (h 0 1 "|x".toList "x".toList rfl rfl) (by decide)
  · exact absurd (h 0 1 "a|b".toList "b".toList rfl rfl) (by decide)
  · exact absurd (h 2 0 "b".toList "b".toList rfl rfl) (by decide)

/-- C4, amended. For every list of lines without newline, each with at least one
field (as is the case under a non-empty `Delim`), every trimmed field being
shorter than 10000010 bytes and the first field of the first line non-empty,
and every config whose `Glue` has neither percent sign nor newline, the output
of `Format` is column-aligned: line `r` of the output
carries the trimmed field `j` of input line `r` from the offset
`sum over i < j of (widths[i] + runes of Glue)` on.  Column `j + 1` thus starts
`widths[j]` code points and a glue after column `j`, and `widths[j]` is at least
the length of every field of column `j`. -/
theorem Format_aligned (config : Config) (lines : List GoString) (hg : '%' ∉ config.Glue)
    (hgn : '\n' ∉ config.Glue) (hl : ∀ l ∈ lines, '\n' ∉ l)
    (hk : ∀ l ∈ lines, getElementsFromLine l config.Delim ≠ [])
    (hshort : ∀ l ∈ lines, ∀ f ∈ getElementsFromLine l config.Delim, len f < 10000010)
    (h0 : (lines.head?.bind fun l => (getElementsFromLine l config.Delim).head?) ≠ some []) :
    ColumnAligned lines config ∧
      ∀ l ∈ lines, ∀ (j : Nat) (f : GoString),
        (getElementsFromLine l config.Delim)[j]? = some f →
        runeCount f ≤ len f ∧ len f ≤ (getWidthsFromLines lines config.Delim).getD j 0 ∧
          columnOffset (getWidthsFromLines lines config.Delim) config.Glue (j + 1)
            = columnOffset (getWidthsFromLines lines config.Delim) config.Glue j
              + (getWidthsFromLines lines config.Delim).getD j 0 + runeCount config.Glue := by
  have hwid : ∀ l ∈ lines, ∀ (j : Nat) (f : GoString),
      (getElementsFromLine l config.Delim)[j]? = some f →
      len f ≤ (getWidthsFromLines lines config.Delim).getD j 0 := by
    intro l hlm j f hf
    obtain ⟨w, hw, hle⟩ := getWidthsFromLines_bound lines config.Delim l hlm j f hf
    simpa [List.getD_eq_getElem?_getD, hw] using hle
  refine ⟨?_, fun l hlm j f hf => ⟨runeCount_le_len f, hwid l hlm j f hf, ?_⟩⟩
  swap
  · simp [columnOffset, List.range_succ, Nat.add_assoc]
  -- the rows, one per line
  have hrow : ∀ l ∈ lines, ∃ body,
      renderedLine (getWidthsFromLines lines config.Delim) config.Glue
          (getElementsFromLine l config.Delim) = body ++ ['\n'] ∧ '\n' ∉ body ∧
        ∀ (j : Nat) (f : GoString), (getElementsFromLine l config.Delim)[j]? = some f →
          ∃ pre post, body = pre ++ f ++ post ∧
            pre.length = columnOffset (getWidthsFromLines lines config.Delim) config.Glue j := by
    intro l hlm
    apply renderedLine_body config.Glue hgn _ _ (hk l hlm)
      (getWidthsFromLines_length_ge lines config.Delim l hlm)
    · intro f hf hnl
      exact hl l hlm (getElementsFromLine_mem l config.Delim f hf _ hnl)
    · intro i f hf
      exact Nat.le_trans (runeCount_le_len f) (hwid l hlm i f hf)
  have hflat : (lines.map fun line =>
      renderedLine (getWidthsFromLines lines config.Delim) config.Glue
        (getElementsFromLine line config.Delim))
      = (lines.map fun line =>
          (renderedLine (getWidthsFromLines lines config.Delim) config.Glue
            (getElementsFromLine line config.Delim)).dropLast).map (· ++ ['\n']) := by
    rw [List.map_map]
    apply List.map_congr_left
    intro l hlm
    obtain ⟨body, hbody, -, -⟩ := hrow l hlm
    simp [hbody]
  -- nothing is trimmed on the left
  have hleft : ∀ u : GoString, u = (lines.map fun line =>
      renderedLine (getWidthsFromLines lines config.Delim) config.Glue
        (getElementsFromLine line config.Delim)).flatten → TrimLeftFunc u isSpace = u := by
    intro u hu
    cases hlines : lines with
    | nil => rw [hu, hlines]; rfl
    | cons l0 rest =>
      have hl0 : l0 ∈ lines := by rw [hlines]; exact List.mem_cons_self _ _
      cases hfs : getElementsFromLine l0 config.Delim with
      | nil => exact absurd hfs (hk l0 hl0)
      | cons f0 fs =>
        have hf0 : f0 ≠ [] := by
          intro hf0
          apply h0
          simp [hlines, hfs, hf0]
        obtain ⟨t, ht⟩ := renderedLine_head (getWidthsFromLines lines config.Delim)
          config.Glue f0 fs
        cases hf0c : f0 with
        | nil => exact absurd hf0c hf0
        | cons c f0t =>
          have hc : isSpace c = false :=
            (getElementsFromLine_trimmed l0 config.Delim f0
              (by rw [hfs]; exact List.mem_cons_self _ _)).1 c (by rw [hf0c]; rfl)
          rw [hlines] at hu
          simp only [List.map_cons, List.flatten_cons, hfs] at hu
          rw [← hlines, ht, hf0c] at hu
          rw [hu]
          simp only [List.cons_append, TrimLeftFunc]
          rw [List.dropWhile_cons_of_neg (by simp [hc])]
  intro r j line field hline hfield
  have hlm : line ∈ lines := List.getElem?_mem hline
  simp only [Format, FormatWith, inputLines]
  rw [renderLoop_eq config lines hg hshort]
  simp only [TrimSpace]
  rw [hleft _ rfl, hflat]
  by_cases hfe : field = []
  · simp [hfe, runeCount]
  obtain ⟨c, hc⟩ : ∃ c, field.getLast? = some c := by
    cases hx : field.getLast? with
    | none => exact absurd (List.getLast?_eq_none_iff.mp hx) hfe
    | some c => exact ⟨c, rfl⟩
  have hcs : isSpace c = false :=
    (getElementsFromLine_trimmed line config.Delim field (List.getElem?_mem hfield)).2 c hc
  obtain ⟨body, hbody, -, hcol⟩ := hrow line hlm
  obtain ⟨pre, post, hpp, hpre⟩ := hcol j field hfield
  obtain ⟨post2, hp2⟩ := Split_trimmed_rows
    (lines.map fun line =>
      (renderedLine (getWidthsFromLines lines config.Delim) config.Glue
        (getElementsFromLine line config.Delim)).dropLast)
    (by
      intro b hb
      obtain ⟨l, hlm2, rfl⟩ := List.mem_map.mp hb
      obtain ⟨body2, hbody2, hnb2, -⟩ := hrow l hlm2
      simpa [hbody2] using hnb2)
    r body pre field post
    (by simp [List.getElem?_map, hline, hbody])
    hpp c hc hcs
  simp only [TrimRightFunc]
  rw [hp2, ← hpre]
  simp [runeCount]

/-- Witness for C4: field `d` of the second line starts at offset 5 of the second
output line. -/
theorem Format_aligned_witness :
    (((Split (Format (.strs ["a|b".toList, "ccc|d".toList])
          { Delim := "|".toList, Glue := "  ".toList }).1 "\n".toList).getD 1 []).drop
        (columnOffset (getWidthsFromLines ["a|b".toList, "ccc|d".toList] "|".toList)
          "  ".toList 1)).take (runeCount "d".toList) = "d".toList :=
  (Format_aligned { Delim := "|".toList, Glue := "  ".toList } ["a|b".toList, "ccc|d".toList]
    (by decide) (by decide) (by decide) (by decide) (by decide) (by decide)).1 1 1 "ccc|d".toList
    "d".toList rfl rfl

/-- C5. For every input and every config, whatever `fmt.Sprintf` produces in the
rendering loop, the string returned by `Format` is a fixed point of `TrimSpace`:
its first and its last code point are not white space, and it does not end
with a newline. -/
theorem Format_trimmed (sprintf : GoString → List GoString → GoString) (input : Input)
    (config : Config) :
    TrimSpace (FormatWith sprintf input config).1 = (FormatWith sprintf input config).1 ∧
      (∀ c, (FormatWith sprintf input config).1.head? = some c → isSpace c = false) ∧
      (∀ c, (FormatWith sprintf input config).1.getLast? = some c → isSpace c = false) ∧
      (FormatWith sprintf input config).1.getLast? ≠ some '\n' ∧
      TrimSpace (Format input config).1 = (Format input config).1 := by
  have key : ∀ sp : GoString → List GoString → GoString,
      ∃ r, (FormatWith sp input config).1 = TrimSpace r := by
    intro sp
    unfold FormatWith
    cases inputLines input with
    | none => exact ⟨[], rfl⟩
    | some lines => exact ⟨_, rfl⟩
  obtain ⟨r, hr⟩ := key sprintf
  obtain ⟨r2, hr2⟩ := key sprintfElems
  refine ⟨?_, ?_, ?_, ?_, ?_⟩
  · rw [hr, TrimSpace_idem]
  · intro c hc; rw [hr] at hc; exact TrimSpace_head r c hc
  · intro c hc; rw [hr] at hc; exact TrimSpace_getLast r c hc
  · intro hc
    rw [hr] at hc
    have := TrimSpace_getLast r _ hc
    revert this
    decide
  · unfold Format; rw [hr2, TrimSpace_idem]

/-- C6. For every string and every config, `Format` on the string returns what
`Format` returns on the list of lines obtained by splitting the string on the
newline character, nothing being trimmed or dropped in between. -/
theorem Format_string_eq_lines (s : GoString) (config : Config) :
    Format (.str s) config = Format (.strs (Split s "\n".toList)) config ∧
      ∀ sprintf, FormatWith sprintf (.str s) config
        = FormatWith sprintf (.strs (Split s "\n".toList)) config := by
  refine ⟨?_, fun sprintf => ?_⟩ <;>
    simp only [Format, FormatWith, inputLines_str] <;> rfl

/-- C7. For every input, `SimpleFormat` returns the string and the error of `Format`
under the config with `Delim = "|"` and `Glue` two spaces, which is the config
`DefaultConfig` returns. -/
theorem SimpleFormat_eq (input : Input) :
    SimpleFormat input = Format input { Delim := ['|'], Glue := [' ', ' '] } ∧
      DefaultConfig = { Delim := ['|'], Glue := [' ', ' '] } :=
  ⟨rfl, rfl⟩

/-- C8. Scenario A: the list `["foo  |  bar", "12345 | 678"]` under the default
config is formatted to `"foo    bar\n12345  678"` with a nil error. -/
theorem Format_scenarioA :
    Format (.strs ["foo  |  bar".toList, "12345 | 678".toList]) DefaultConfig
      = ("foo    bar\n12345  678".toList, none) := by
  decide

/-- C9, as stated, fails: on the string `"a|bb|ccc\nddd|e|f"` under the default
config `Format` does not return `"a    bb   ccc\nddd  e    f"`. -/
theorem Format_scenarioB_stated_fails :
    Format (.str "a|bb|ccc\nddd|e|f".toList) DefaultConfig
      ≠ ("a    bb   ccc\nddd  e    f".toList, none) := by
  decide

/-- C9, amended. Scenario B: the string `"a|bb|ccc\nddd|e|f"` under the default
config has the widths `[3, 2, 3]` and is formatted, with a nil error, to
`"a    bb  ccc\nddd  e   f"`: column 1 is padded to its width 2 and followed by
the two spaces of the glue. -/
theorem Format_scenarioB :
    Format (.str "a|bb|ccc\nddd|e|f".toList) DefaultConfig
        = ("a    bb  ccc\nddd  e   f".toList, none) ∧
      getWidthsFromLines (Split "a|bb|ccc\nddd|e|f".toList "\n".toList) DefaultConfig.Delim
        = [3, 2, 3] := by
  decide

/-- C10. Scenario D: the list `["x,y", "aa,b"]` under `Delim = ","` and
`Glue = " -> "` is formatted to `"x  -> y\naa -> b"` with a nil error, the
width vector being `[2, 1]`. -/
theorem Format_scenarioD :
    Format (.strs ["x,y".toList, "aa,b".toList]) { Delim := ",".toList, Glue := " -> ".toList }
        = ("x  -> y\naa -> b".toList, none) ∧
      getWidthsFromLines ["x,y".toList, "aa,b".toList] ",".toList = [2, 1] := by
  decide

/-! ## The empty input, growth of the width vector, the empty delimiter -/

/-- C15. For every config, `Format` on a list of zero lines returns the empty string
and a nil error (whatever `fmt.Sprintf` does, as it is never called), and the
width vector computed for zero lines is empty. -/
theorem Format_no_lines (config : Config) :
    Format (.strs []) config = ([], none) ∧
      (∀ sprintf, FormatWith sprintf (.strs []) config = ([], none)) ∧
      getWidthsFromLines [] config.Delim = [] :=
  ⟨rfl, fun _ => rfl, rfl⟩

theorem getWidthsFromLines_append (lines : List GoString) (l delim : GoString) :
    getWidthsFromLines (lines ++ [l]) delim
      = mergeWidths (getWidthsFromLines lines delim) ((getElementsFromLine l delim).map len) := by
  simp [getWidthsFromLines, List.foldl_append, updateWidths_eq]

/-- C17. For every list of lines, every delimiter and every further line `l`, the
vector `getWidthsFromLines (lines ++ [l])` is at least as long as
`getWidthsFromLines lines`, and at every index of the latter its entry is at
least the old entry. -/
theorem getWidthsFromLines_grows (lines : List GoString) (l delim : GoString) :
    (getWidthsFromLines lines delim).length ≤ (getWidthsFromLines (lines ++ [l]) delim).length ∧
      ∀ (i w : Nat), (getWidthsFromLines lines delim)[i]? = some w →
        ∃ w2, (getWidthsFromLines (lines ++ [l]) delim)[i]? = some w2 ∧ w ≤ w2 := by
  rw [getWidthsFromLines_append]
  refine ⟨?_, ?_⟩
  · rw [mergeWidths_length]
    exact Nat.le_max_left _ _
  · intro i w hw
    have hm := mergeWidths_getElem? (getWidthsFromLines lines delim)
      ((getElementsFromLine l delim).map len) i
    rw [hw] at hm
    cases hl : ((getElementsFromLine l delim).map len)[i]? with
    | none =>
      rw [hl] at hm
      exact ⟨w, hm, Nat.le_refl _⟩
    | some x =>
      rw [hl] at hm
      exact ⟨max w x, hm, Nat.le_max_left _ _⟩

theorem TrimSpace_singleton (c : Char) :
    TrimSpace [c] = if isSpace c then [] else [c] := by
  cases h : isSpace c <;>
    simp [TrimSpace, TrimLeftFunc, TrimRightFunc, List.dropWhile, List.rdropWhile, h]

/-- C18, as stated, fails: under the empty delimiter the line `"ab"` has the two
fields `a` and `b`, not the single field `ab`, and `Format` renders two
columns. -/
theorem getElementsFromLine_empty_delim_stated_fails :
    getElementsFromLine "ab".toList [] ≠ [TrimSpace "ab".toList] ∧
      getElementsFromLine "ab".toList [] = ["a".toList, "b".toList] ∧
      Format (.strs ["ab".toList]) { Delim := [], Glue := "  ".toList } = ("a  b".toList, none) := by
  decide

/-- C18, amended. With an empty `Delim` a line is split into its code points:
`getElementsFromLine line ""` has one field per code point of the line, the
code point itself when it is not white space and the empty field when it is,
so the empty line has no field at all and `Format` with `Delim = ""` treats
every code point of a line as a column. -/
theorem getElementsFromLine_empty_delim (line : GoString) :
    getElementsFromLine line [] = line.map (fun c => if isSpace c then [] else [c]) ∧
      (getElementsFromLine line []).length = runeCount line := by
  have h : getElementsFromLine line [] = line.map (fun c => if isSpace c then [] else [c]) := by
    rw [getElementsFromLine_eq]
    simp [Split, TrimSpace_singleton, Function.comp_def]
  exact ⟨h, by rw [h]; simp [runeCount]⟩

/-! ## The glue inside the format string, short lines, short width vectors -/

/-- C11 fails on the code. Under `Glue = "%%"` the line `"a|b"` gets the format
`"%-1s%%%s\n"`, in which `fmt.Sprintf` reads the glue as the directive `%%`:
the output is `"a%b"`, not `"a%%b"`.  Under `Glue = "%s"` the glue consumes the
second field and the last directive is left without operand. -/
theorem Format_glue_percent :
    Format (.strs ["a|b".toList]) { Delim := "|".toList, Glue := "%%".toList }
        = ("a%b".toList, none) ∧
      getStringFormat [1, 1] 2 "%%".toList = "%-1s%%%s\n".toList ∧
      Sprintf "%-1s%%%s\n".toList [.str "a".toList, .str "b".toList] = some "a%b\n".toList ∧
      padRight 1 "a".toList ++ "%%".toList ++ "b".toList = "a%%b".toList ∧
      Format (.strs ["a|b".toList]) { Delim := "|".toList, Glue := "%s".toList }
        = ("ab%!s(MISSING)".toList, none) := by
  decide

theorem getStringFormat_nil (columns : Nat) (space : GoString) :
    getStringFormat [] columns space = [] := by
  simp [getStringFormat_eq]

theorem renderedLine_getLast (widths : List Nat) (glue : GoString) (fields : List GoString)
    (hne : fields ≠ []) :
    renderedLine widths glue fields
      = ((List.range (fields.length - 1)).map fun i =>
          padRight (widths.getD i 0) (fields.getD i []) ++ glue).flatten ++
        (fields.getLast hne ++ "\n".toList) := by
  simp [renderedLine, List.getLast?_eq_getLast _ hne]

/-- Lines shorter than the width vector, where `fmt` reads the format as meant.
For every width vector and every line with `k >= 1` trimmed fields, `k` at
most the length of the vector, the format string of `getStringFormat` is made
of `k - 1` padded directives, each followed by the glue, and of the directive
`%s` with the newline; rendered through it, under a glue without percent
sign and widths below 10000010 in the padded columns, the line shows its first
`k - 1` fields padded, each followed by the glue, then its last field as it is
followed at once by the newline: no padding after the last field, no column
for the widths beyond `k`. -/
theorem getStringFormat_fewer_fields_short (widths : List Nat) (glue : GoString)
    (fields : List GoString) (hne : fields ≠ []) (hlen : fields.length ≤ widths.length) :
    getStringFormat widths fields.length glue
        = ((List.range (fields.length - 1)).map fun i =>
            columnDirective (widths.getD i 0) ++ glue).flatten ++ "%s\n".toList ∧
      ('%' ∉ glue → (∀ i, i + 1 < fields.length → widths.getD i 0 < 10000010) →
        Sprintf (getStringFormat widths fields.length glue) (fields.map GoArg.str)
            = some (((List.range (fields.length - 1)).map fun i =>
                padRight (widths.getD i 0) (fields.getD i []) ++ glue).flatten ++
              (fields.getLast hne ++ "\n".toList)) ∧
          sprintfElems (getStringFormat widths fields.length glue) fields
            = ((List.range (fields.length - 1)).map fun i =>
                padRight (widths.getD i 0) (fields.getD i []) ++ glue).flatten ++
              (fields.getLast hne ++ "\n".toList)) := by
  refine ⟨?_, fun hg hb => ⟨?_, ?_⟩⟩
  · have hk : 0 < fields.length := List.length_pos.mpr hne
    obtain ⟨k, hk2⟩ : ∃ k, fields.length = k + 1 := ⟨fields.length - 1, by omega⟩
    rw [getStringFormat_eq, hk2, Nat.min_eq_left (by omega), List.range_succ]
    simp only [Nat.add_sub_cancel, List.map_append, List.map_cons, List.map_nil, if_true,
      List.flatten_append, List.flatten_cons, List.flatten_nil, List.append_nil]
    congr 2
    apply List.map_congr_left
    intro i hi
    have : i ≠ k := by
      have := List.mem_range.mp hi
      omega
    simp [this]
  · rw [Sprintf_getStringFormat glue hg fields widths hlen hb, renderedLine_getLast _ _ _ hne]
  · rw [sprintfElems_getStringFormat glue hg fields widths hlen hb,
      renderedLine_getLast _ _ _ hne]

/-- An instance of `getStringFormat_fewer_fields_short`: a line of two fields under a
vector of three widths. -/
theorem getStringFormat_fewer_fields_short_example :
    getStringFormat [3, 2, 3] 2 "  ".toList = "%-3s  %s\n".toList ∧
      sprintfElems (getStringFormat [3, 2, 3] 2 "  ".toList) ["a".toList, "bb".toList]
        = "a    bb\n".toList := by
  have h := getStringFormat_fewer_fields_short [3, 2, 3] "  ".toList ["a".toList, "bb".toList]
    (by decide) (by decide)
  refine ⟨h.1.trans (by decide), (h.2 (by decide) ?_).2.trans (by decide)⟩
  intro i hi
  have hi0 : i = 0 := by
    simp only [List.length_cons, List.length_nil] at hi
    omega
  subst hi0
  decide

/-- C19 fails on the code: with the single width `[1]` and the two fields `a`, `b`
the loop of `getStringFormat` stops at `i < len(widths)` before it reaches the
last column, so the format is `"%-1s  "`, without directive for the second
field and without newline, and `fmt.Sprintf` reports the second field as an
extra operand: the line is `"a  %!(EXTRA string=b)"`.  It is not `"a  b\n"`, the
rendering with the overflow column emitted as it is, and it does not even
begin with `"a  b"`: what follows the glue is not the overflow field. -/
theorem getStringFormat_short_widths_stated_fails :
    getStringFormat [1] 2 "  ".toList = "%-1s  ".toList ∧
      Sprintf (getStringFormat [1] 2 "  ".toList) [.str "a".toList, .str "b".toList]
        = some "a  %!(EXTRA string=b)".toList ∧
      renderedLine [1] "  ".toList ["a".toList, "b".toList] = "a  b\n".toList ∧
      sprintfElems (getStringFormat [1] 2 "  ".toList) ["a".toList, "b".toList]
        ≠ renderedLine [1] "  ".toList ["a".toList, "b".toList] ∧
      ("a  b".toList).isPrefixOf
        (sprintfElems (getStringFormat [1] 2 "  ".toList) ["a".toList, "b".toList]) = false := by
  decide

/-- What the code does with a short width vector.  For every width vector with
fewer entries than the field count `k` of a line, all of them below 10000010,
and every glue without percent sign, `getStringFormat` reads the entries
`widths[i]` for `i < len(widths)` only and builds one padded directive
followed by the glue for each of them, and nothing for the overflow columns,
not even the newline; through that format the line shows its first
`len(widths)` fields padded, each followed by the glue, and then the text
`%!(EXTRA string=f, string=g, ...)` in which `fmt.Sprintf` lists the overflow
fields. -/
theorem getStringFormat_overflow (widths : List Nat) (glue : GoString) (hg : '%' ∉ glue)
    (hb : ∀ w ∈ widths, w < 10000010)
    (fields : List GoString) (hlen : widths.length < fields.length) :
    getStringFormat widths fields.length glue
        = (widths.map fun w => columnDirective w ++ glue).flatten ∧
      Sprintf (getStringFormat widths fields.length glue) (fields.map GoArg.str)
        = some (((List.range widths.length).map fun i =>
              padRight (widths.getD i 0) (fields.getD i []) ++ glue).flatten ++
            ("%!(EXTRA ".toList ++
              ", ".toList.intercalate ((fields.drop widths.length).map fun f =>
                "string=".toList ++ f) ++ [')'])) := by
  induction widths generalizing fields with
  | nil =>
    cases fields with
    | nil => simp at hlen
    | cons f fs =>
      simp [getStringFormat_nil, Sprintf, doPrintf, extraArgs, typeName, Function.comp_def]
  | cons w widths ih =>
    cases fields with
    | nil => simp at hlen
    | cons f fs =>
      cases fs with
      | nil => simp at hlen
      | cons f2 fs =>
        have hlen2 : widths.length < (f2 :: fs).length := by simpa using hlen
        obtain ⟨ih1, ih2⟩ :=
          ih (fun x hx => hb x (List.mem_cons_of_mem _ hx)) (f2 :: fs) hlen2
        simp only [Sprintf, List.length_cons, List.map_cons] at ih1 ih2 ⊢
        rw [getStringFormat_cons, ih1]
        refine ⟨by simp, ?_⟩
        rw [← ih1, doPrintf_columnDirective _ (hb w (List.mem_cons_self _ _)),
          doPrintf_literal _ _ _ hg, ih2]
        simp [List.range_succ_eq_map, Function.comp_def]

/-- An instance of `getStringFormat_overflow`: three fields under a single width. -/
theorem getStringFormat_overflow_example :
    Sprintf (getStringFormat [2] 3 "  ".toList)
        [.str "a".toList, .str "b".toList, .str "c".toList]
      = some "a   %!(EXTRA string=b, string=c)".toList := by
  exact (getStringFormat_overflow [2] "  ".toList (by decide) (by decide)
    ["a".toList, "b".toList, "c".toList] (by decide)).2.trans (by decide)

/-! ## No run-time panic -/

theorem foldlM_eq_some {α β : Type} (f : β → α → Option β) (g : β → α → β) (l : List α)
    (h : ∀ acc, ∀ x ∈ l, f acc x = some (g acc x)) (init : β) :
    l.foldlM f init = some (l.foldl g init) := by
  induction l generalizing init with
  | nil => rfl
  | cons x xs ih =>
    rw [List.foldlM_cons, h init x (List.mem_cons_self _ _)]
    exact ih (fun acc y hy => h acc y (List.mem_cons_of_mem _ hy)) _

theorem getElementsFromLineBoxed_eq (line delim : GoString) :
    getElementsFromLineBoxed line delim = (getElementsFromLine line delim).map GoArg.str := by
  simp [getElementsFromLineBoxed, getElementsFromLine, foldl_append_singleton]

theorem widthStepChecked_eq (elems : List GoString) (widths : List Nat) (i : Nat)
    (hi : i < elems.length) :
    widthStepChecked (elems.map GoArg.str) widths i = some (widthStep elems widths i) := by
  have he : (elems.map GoArg.str)[i]?.bind assertString = some (elems.getD i []) := by
    simp [List.getElem?_map, List.getElem?_eq_getElem hi, assertString,
      List.getD_eq_getElem?_getD]
  unfold widthStepChecked widthStep
  rw [he]
  by_cases hw : widths.length ≤ i
  · simp [hw]
  · have hlt : i < widths.length := by omega
    simp only [hw, if_false, List.getElem?_eq_getElem hlt, Option.some_bind, hlt, if_true,
      List.getD_eq_getElem?_getD, Option.getD_some]
    split <;> rfl

theorem updateWidthsChecked_eq (elems : List GoString) (widths : List Nat) :
    updateWidthsChecked (elems.map GoArg.str) widths = some (updateWidths elems widths) := by
  unfold updateWidthsChecked updateWidths
  rw [List.length_map]
  exact foldlM_eq_some _ _ _
    (fun acc i hi => widthStepChecked_eq elems acc i (List.mem_range.mp hi)) _

theorem getWidthsFromLinesChecked_eq (lines : List GoString) (delim : GoString) :
    getWidthsFromLinesChecked lines delim = some (getWidthsFromLines lines delim) := by
  unfold getWidthsFromLinesChecked getWidthsFromLines
  apply foldlM_eq_some
  intro acc line _
  rw [getElementsFromLineBoxed_eq, updateWidthsChecked_eq]

theorem getStringFormatChecked_eq (widths : List Nat) (columns : Nat) (space : GoString) :
    getStringFormatChecked widths columns space = some (getStringFormat widths columns space) := by
  unfold getStringFormatChecked getStringFormat
  apply foldlM_eq_some
  intro acc i hi
  have hlt : i < widths.length := by
    have := List.mem_range.mp hi
    omega
  split
  · rfl
  · simp [List.getElem?_eq_getElem hlt, List.getD_eq_getElem?_getD]

/-- C16. For every input and every config the computation of `Format` cannot fail:
run with every read and write of `widths[i]` and every type assertion checked
(`none` standing for the run-time panic), `getWidthsFromLines`,
`getStringFormat` and `Format` always return, and return what the unchecked
embedding returns; every element of `getElementsFromLine` is a boxed string, on
which the assertion succeeds. -/
theorem Format_never_panics (sprintf : GoString → List GoArg → GoString) (input : Input)
    (config : Config) :
    FormatWithChecked sprintf input config
        = some (FormatWith (fun stringfmt elems => sprintf stringfmt (elems.map GoArg.str))
            input config) ∧
      FormatWithChecked (fun stringfmt elems => (Sprintf stringfmt elems).getD []) input config
        = some (Format input config) ∧
      (∀ lines delim, getWidthsFromLinesChecked lines delim
        = some (getWidthsFromLines lines delim)) ∧
      (∀ widths columns space, getStringFormatChecked widths columns space
        = some (getStringFormat widths columns space)) ∧
      (∀ line delim, ∀ e ∈ getElementsFromLineBoxed line delim, ∃ s, e = GoArg.str s ∧
        assertString e = some s) := by
  have key : ∀ sp : GoString → List GoArg → GoString,
      FormatWithChecked sp input config
        = some (FormatWith (fun stringfmt elems => sp stringfmt (elems.map GoArg.str))
            input config) := by
    intro sp
    unfold FormatWithChecked FormatWith
    cases inputLines input with
    | none => rfl
    | some lines =>
      simp only [getWidthsFromLinesChecked_eq, Option.some_bind]
      rw [foldlM_eq_some _ (fun result line =>
        result ++ sp (getStringFormat (getWidthsFromLines lines config.Delim)
          (getElementsFromLine line config.Delim).length config.Glue)
          ((getElementsFromLine line config.Delim).map GoArg.str))]
      · rfl
      · intro acc line _
        rw [getElementsFromLineBoxed_eq, getStringFormatChecked_eq, List.length_map]
        rfl
  refine ⟨key sprintf, key _, getWidthsFromLinesChecked_eq, getStringFormatChecked_eq, ?_⟩
  intro line delim e he
  rw [getElementsFromLineBoxed_eq] at he
  obtain ⟨s, -, rfl⟩ := List.mem_map.mp he
  exact ⟨s, rfl, rfl⟩

/-! ## Splitting on a separator that starts with a given code point -/

theorem Split_cons_ne (g0 : Char) (g s : GoString) (c : Char) (hc : c ≠ g0) :
    Split (c :: s) (g0 :: g) = consHead c (Split s (g0 :: g)) := by
  have : (g0 == c) = false := by simpa using fun h => hc h.symm
  simp [Split, splitLoop, List.isPrefixOf, this]

theorem splitLoop_skip (sep x rest : GoString) :
    splitLoop sep (x ++ rest) x.length = splitLoop sep rest 0 := by
  induction x with
  | nil => rfl
  | cons c x ih => simpa [splitLoop] using ih

theorem Split_sep_append (g0 : Char) (g rest : GoString) :
    Split (g0 :: g ++ rest) (g0 :: g) = [] :: Split rest (g0 :: g) := by
  have hp : (g0 :: g).isPrefixOf (g0 :: (g ++ rest)) = true := by
    rw [List.isPrefixOf_iff_prefix]
    exact ⟨rest, rfl⟩
  have h1 : Split (g0 :: g ++ rest) (g0 :: g)
      = [] :: splitLoop (g0 :: g) (g ++ rest) g.length := by
    show Split (g0 :: (g ++ rest)) (g0 :: g) = _
    simp only [Split, reduceCtorEq, if_false, splitLoop, hp, if_true, List.length_cons,
      Nat.add_sub_cancel]
  rw [h1, splitLoop_skip]
  simp [Split]

theorem Split_no_sep (g0 : Char) (g p : GoString) (hp : g0 ∉ p) :
    Split p (g0 :: g) = [p] := by
  induction p with
  | nil => simp [Split, splitLoop]
  | cons c p ih =>
    have hc : c ≠ g0 := fun hc => hp (by simp [hc])
    rw [Split_cons_ne g0 g p c hc, ih (fun h => hp (List.mem_cons_of_mem _ h))]
    rfl

theorem Split_piece (g0 : Char) (g p rest : GoString) (hp : g0 ∉ p) :
    Split (p ++ (g0 :: g ++ rest)) (g0 :: g) = p :: Split rest (g0 :: g) := by
  induction p with
  | nil => exact Split_sep_append g0 g rest
  | cons c p ih =>
    have hc : c ≠ g0 := fun hc => hp (by simp [hc])
    rw [List.cons_append, Split_cons_ne g0 g _ c hc, ih (fun h => hp (List.mem_cons_of_mem _ h))]
    rfl

theorem Split_ne_nil (g0 : Char) (g s : GoString) : Split s (g0 :: g) ≠ [] := by
  simp only [Split, reduceCtorEq, if_false]
  exact splitLoop_ne_nil _ _ _

/-! ## White space at the ends of a string -/

theorem TrimSpace_cons_space (c : Char) (p : GoString) (hc : isSpace c = true) :
    TrimSpace (c :: p) = TrimSpace p := by
  simp [TrimSpace, TrimLeftFunc, List.dropWhile_cons, hc]

theorem TrimSpace_concat_space (c : Char) (p : GoString) (hc : isSpace c = true) :
    TrimSpace (p ++ [c]) = TrimSpace p := by
  simp only [TrimSpace, TrimLeftFunc, TrimRightFunc, List.dropWhile_append]
  cases hd : List.dropWhile isSpace p with
  | nil => simp [List.dropWhile, hc, List.rdropWhile]
  | cons a t =>
    simp only [List.isEmpty_cons, Bool.false_eq_true, if_false]
    exact List.rdropWhile_concat_pos isSpace (a :: t) c hc

theorem TrimSpace_spaces_append (ws p : GoString) (hws : ∀ c ∈ ws, isSpace c = true) :
    TrimSpace (ws ++ p) = TrimSpace p := by
  induction ws with
  | nil => rfl
  | cons c ws ih =>
    rw [List.cons_append, TrimSpace_cons_space _ _ (hws c (List.mem_cons_self _ _))]
    exact ih (fun x hx => hws x (List.mem_cons_of_mem _ hx))

theorem TrimSpace_append_spaces (ws p : GoString) (hws : ∀ c ∈ ws, isSpace c = true) :
    TrimSpace (p ++ ws) = TrimSpace p := by
  induction ws generalizing p with
  | nil => simp
  | cons c ws ih =>
    have : p ++ c :: ws = (p ++ [c]) ++ ws := by simp
    rw [this, ih (p ++ [c]) (fun x hx => hws x (List.mem_cons_of_mem _ hx)),
      TrimSpace_concat_space _ _ (hws c (List.mem_cons_self _ _))]

theorem TrimSpace_padRight (w : Nat) (f : GoString) : TrimSpace (padRight w f) = TrimSpace f := by
  unfold padRight
  apply TrimSpace_append_spaces
  intro c hc
  rw [(List.mem_replicate.mp hc).2]
  decide

theorem rdropWhile_decomp (p : Char → Bool) (l : GoString) :
    ∃ t, (∀ c ∈ t, p c = true) ∧ l = l.rdropWhile p ++ t := by
  induction l using List.reverseRecOn with
  | nil => exact ⟨[], by simp, by simp [List.rdropWhile]⟩
  | append_singleton l x ih =>
    by_cases hx : p x = true
    · obtain ⟨t, ht, hl⟩ := ih
      refine ⟨t ++ [x], ?_, ?_⟩
      · intro c hc
        rcases List.mem_append.mp hc with h | h
        · exact ht c h
        · simp only [List.mem_singleton] at h
          rw [h]; exact hx
      · rw [List.rdropWhile_concat_pos _ _ _ hx, ← List.append_assoc, ← hl]
    · exact ⟨[], by simp, by rw [List.rdropWhile_concat_neg _ _ _ hx]; simp⟩

/-- A string is its trimmed form between two runs of white space. -/
theorem TrimSpace_decomp (x : GoString) :
    ∃ wl wr, (∀ c ∈ wl, isSpace c = true) ∧ (∀ c ∈ wr, isSpace c = true) ∧
      x = wl ++ TrimSpace x ++ wr := by
  obtain ⟨t, ht, hl⟩ := rdropWhile_decomp isSpace (x.dropWhile isSpace)
  refine ⟨x.takeWhile isSpace, t, fun c hc => List.mem_takeWhile_imp hc, ht, ?_⟩
  simp only [TrimSpace, TrimLeftFunc, TrimRightFunc]
  rw [List.append_assoc, ← hl, List.takeWhile_append_dropWhile]

/-! ## The body of a rendered line and its fields -/

theorem renderedLine_eq_body (widths : List Nat) (glue : GoString) (fields : List GoString)
    (hne : fields ≠ []) :
    renderedLine widths glue fields = renderedBody widths glue fields ++ ['\n'] := by
  simp [renderedLine, renderedBody, List.getLast?_eq_getLast _ hne]

theorem renderedBody_one (widths : List Nat) (glue f : GoString) :
    renderedBody widths glue [f] = f := by
  simp [renderedBody]

theorem renderedBody_cons (w : Nat) (widths : List Nat) (glue f f2 : GoString)
    (fs : List GoString) :
    renderedBody (w :: widths) glue (f :: f2 :: fs)
      = padRight w f ++ (glue ++ renderedBody widths glue (f2 :: fs)) := by
  simp [renderedBody, List.range_succ_eq_map, Function.comp_def, List.getLast?_cons_cons]

/-- Splitting the body of a rendered line on the glue and trimming the pieces gives
the fields back, when the first code point of the glue is not the space and
occurs in no field. -/
theorem renderedBody_fields (g0 : Char) (g : GoString) (hg0 : g0 ≠ ' ') (fs : List GoString)
    (widths : List Nat) (hne : fs ≠ []) (hlen : fs.length ≤ widths.length)
    (hf : ∀ f ∈ fs, g0 ∉ f ∧ TrimSpace f = f) :
    (Split (renderedBody widths (g0 :: g) fs) (g0 :: g)).map TrimSpace = fs := by
  induction fs generalizing widths with
  | nil => exact absurd rfl hne
  | cons f fs ih =>
    cases widths with
    | nil => simp at hlen
    | cons w widths =>
      obtain ⟨hf1, hf2⟩ := hf f (List.mem_cons_self _ _)
      cases fs with
      | nil =>
        rw [renderedBody_one, Split_no_sep g0 g f hf1]
        simp [hf2]
      | cons f2 fs =>
        have hpad : g0 ∉ padRight w f := by
          simp only [padRight, List.mem_append, List.mem_replicate, not_or]
          exact ⟨hf1, fun h => hg0 h.2⟩
        rw [renderedBody_cons, Split_piece g0 g _ _ hpad]
        simp only [List.map_cons, TrimSpace_padRight, hf2]
        rw [ih widths (by simp) (by simpa using hlen)
          (fun x hx => hf x (List.mem_cons_of_mem _ hx))]

theorem renderedBody_head (widths : List Nat) (glue f : GoString) (fs : List GoString) :
    ∃ t, renderedBody widths glue (f :: fs) = f ++ t := by
  cases fs with
  | nil => exact ⟨[], by simp [renderedBody_one]⟩
  | cons f2 fs =>
    refine ⟨List.replicate (widths.getD 0 0 - runeCount f) ' ' ++ (glue ++
      (renderedBody widths.tail glue (f2 :: fs))), ?_⟩
    cases widths with
    | nil =>
      simp [renderedBody, List.range_succ_eq_map, Function.comp_def, List.getLast?_cons_cons,
        padRight]
    | cons w widths => simp [renderedBody_cons, padRight]

theorem renderedBody_getLast (widths : List Nat) (glue : GoString) (fields : List GoString)
    (hne : fields ≠ []) :
    ∃ t, renderedBody widths glue fields = t ++ fields.getLast hne := by
  refine ⟨((List.range (fields.length - 1)).map fun i =>
    padRight (widths.getD i 0) (fields.getD i []) ++ glue).flatten, ?_⟩
  simp [renderedBody, List.getLast?_eq_getLast _ hne]

/-- Every field of a line lies inside the body of its rendered line. -/
theorem mem_renderedBody (widths : List Nat) (glue : GoString) (fields : List GoString)
    (f : GoString) (hf : f ∈ fields) (c : Char) (hc : c ∈ f) :
    c ∈ renderedBody widths glue fields := by
  obtain ⟨j, hj⟩ := List.mem_iff_getElem?.mp hf
  have hjlt : j < fields.length := by
    by_contra h
    rw [List.getElem?_eq_none (by omega)] at hj
    exact Option.noConfusion hj
  have hne : fields ≠ [] := List.ne_nil_of_mem hf
  unfold renderedBody
  rw [List.mem_append]
  by_cases hlast : j + 1 = fields.length
  · right
    rw [List.getLast?_eq_getLast _ hne, Option.getD_some, List.getLast_eq_getElem]
    have h2 : fields[fields.length - 1]? = some f := by
      rw [← hj]; congr 1; omega
    rw [List.getElem?_eq_getElem (by omega)] at h2
    simp only [Option.some.injEq] at h2
    rw [h2]; exact hc
  · left
    simp only [List.mem_flatten, List.mem_map, List.mem_range]
    refine ⟨_, ⟨j, by omega, rfl⟩, ?_⟩
    simp [padRight, List.getD_eq_getElem?_getD, hj, hc]

/-- The body of a rendered line is made of code points of the fields, of spaces and
of the glue. -/
theorem renderedBody_subset (widths : List Nat) (glue : GoString) (fields : List GoString)
    (c : Char) (hc : c ∈ renderedBody widths glue fields) :
    (∃ f ∈ fields, c ∈ f) ∨ c = ' ' ∨ c ∈ glue := by
  unfold renderedBody at hc
  rcases List.mem_append.mp hc with h | h
  · simp only [List.mem_flatten, List.mem_map, List.mem_range] at h
    obtain ⟨l, ⟨i, hi, rfl⟩, hcl⟩ := h
    simp only [padRight, List.mem_append, List.mem_replicate] at hcl
    rcases hcl with (h1 | h1) | h1
    · left
      have hi2 : i < fields.length := by omega
      refine ⟨fields[i], List.getElem_mem _, ?_⟩
      simpa [List.getD_eq_getElem?_getD, List.getElem?_eq_getElem hi2] using h1
    · exact Or.inr (Or.inl h1.2)
    · exact Or.inr (Or.inr h1)
  · left
    cases hl : fields.getLast? with
    | none => rw [hl] at h; simp at h
    | some f =>
      rw [hl] at h
      exact ⟨f, List.mem_of_mem_getLast? hl, by simpa using h⟩

/-! ## The lines of the trimmed output -/

theorem trimFirst_length (rows : List GoString) : (trimFirst rows).length = rows.length := by
  cases rows <;> rfl

theorem trimLast_length : ∀ rows : List GoString, (trimLast rows).length = rows.length
  | [] => rfl
  | [_] => rfl
  | _ :: b2 :: bs => by simp [trimLast, trimLast_length (b2 :: bs)]

theorem trimFirst_getElem? (rows : List GoString) (r : Nat) :
    (trimFirst rows)[r]? = rows[r]?.map fun b => if r = 0 then TrimLeftFunc b isSpace else b := by
  cases rows with
  | nil => simp [trimFirst]
  | cons b bs =>
    cases r with
    | zero => simp [trimFirst]
    | succ r => simp [trimFirst]

theorem trimLast_getElem? : ∀ (rows : List GoString) (r : Nat),
    (trimLast rows)[r]?
      = rows[r]?.map fun b => if r + 1 = rows.length then TrimRightFunc b isSpace else b
  | [], r => by simp [trimLast]
  | [b], r => by
    cases r with
    | zero => simp [trimLast]
    | succ r => simp [trimLast]
  | b :: b2 :: bs, r => by
    cases r with
    | zero => simp [trimLast]
    | succ r =>
      have := trimLast_getElem? (b2 :: bs) r
      simpa [trimLast] using this

theorem Split_rdropWhile_rows (rows : List GoString) (hrows : ∀ b ∈ rows, '\n' ∉ b)
    (hlast : ∃ bl, rows.getLast? = some bl ∧ ∃ c ∈ bl, isSpace c = false) :
    Split ((rows.map (· ++ ['\n'])).flatten.rdropWhile isSpace) "\n".toList = trimLast rows := by
  induction rows with
  | nil =>
    obtain ⟨bl, h, -⟩ := hlast
    simp at h
  | cons b rows ih =>
    have hb : '\n' ∉ b := hrows b (List.mem_cons_self _ _)
    cases rows with
    | nil =>
      simp only [List.map_cons, List.map_nil, List.flatten_cons, List.flatten_nil,
        List.append_nil, trimLast, TrimRightFunc]
      rw [List.rdropWhile_concat_pos _ _ _ (by decide)]
      exact Split_line _ (fun h => hb ((List.rdropWhile_prefix isSpace b).mem h))
    | cons b2 rows =>
      obtain ⟨bl, hbl, c, hc, hcs⟩ := hlast
      have hbl2 : (b2 :: rows).getLast? = some bl := by
        simpa [List.getLast?_cons_cons] using hbl
      have hne : ((List.map (· ++ ['\n']) (b2 :: rows)).flatten).rdropWhile isSpace ≠ [] := by
        intro h0
        have hall := List.rdropWhile_eq_nil_iff.mp h0
        have : isSpace c = true := by
          apply hall
          simp only [List.mem_flatten, List.mem_map]
          exact ⟨bl ++ ['\n'], ⟨bl, List.mem_of_mem_getLast? hbl2, rfl⟩, by simp [hc]⟩
        rw [hcs] at this
        exact Bool.noConfusion this
      have ih2 := ih (fun x hx => hrows x (List.mem_cons_of_mem _ hx)) ⟨bl, hbl2, c, hc, hcs⟩
      rw [List.map_cons, List.flatten_cons, rdropWhile_append_of_ne _ _ _ hne,
        List.append_assoc, List.singleton_append, Split_line_append _ _ hb, ih2]
      rfl

theorem dropWhile_rows (b : GoString) (rows : List GoString)
    (hfirst : ∃ c ∈ b, isSpace c = false) :
    (((b :: rows).map (· ++ ['\n'])).flatten).dropWhile isSpace
      = ((trimFirst (b :: rows)).map (· ++ ['\n'])).flatten := by
  have hne : (b.dropWhile isSpace).isEmpty = false := by
    cases hd : b.dropWhile isSpace with
    | nil =>
      obtain ⟨c, hc, hcs⟩ := hfirst
      have := List.dropWhile_eq_nil_iff.mp hd c hc
      rw [hcs] at this
      exact Bool.noConfusion this
    | cons a t => rfl
  simp only [List.map_cons, List.flatten_cons, trimFirst, TrimLeftFunc, List.append_assoc]
  rw [List.dropWhile_append, hne]
  simp

theorem mem_dropWhile_of_not (p : Char → Bool) (l : GoString) (c : Char) (hc : c ∈ l)
    (hp : p c = false) : c ∈ l.dropWhile p := by
  have h := List.takeWhile_append_dropWhile p l
  rw [← h] at hc
  rcases List.mem_append.mp hc with h1 | h1
  · have := List.mem_takeWhile_imp h1
    rw [hp] at this
    exact Bool.noConfusion this
  · exact h1

/-- The lines of the trimmed concatenation of newline-terminated rows, when the
first and the last row hold a code point that is not white space: the rows, the
first one trimmed on the left and the last one on the right. -/
theorem Split_TrimSpace_rows (rows : List GoString) (hrows : ∀ b ∈ rows, '\n' ∉ b)
    (hfirst : ∃ b, rows.head? = some b ∧ ∃ c ∈ b, isSpace c = false)
    (hlast : ∃ bl, rows.getLast? = some bl ∧ ∃ c ∈ bl, isSpace c = false) :
    Split (TrimSpace (rows.map (· ++ ['\n'])).flatten) "\n".toList
      = trimLast (trimFirst rows) := by
  cases rows with
  | nil =>
    obtain ⟨b, h, -⟩ := hfirst
    simp at h
  | cons b rows =>
    obtain ⟨b1, hb1, c1, hc1, hcs1⟩ := hfirst
    simp only [List.head?_cons, Option.some.injEq] at hb1
    subst hb1
    unfold TrimSpace TrimLeftFunc TrimRightFunc
    rw [dropWhile_rows b rows ⟨c1, hc1, hcs1⟩]
    apply Split_rdropWhile_rows
    · intro x hx
      simp only [trimFirst, List.mem_cons] at hx
      rcases hx with hx | hx
      · rw [hx]
        exact fun h => hrows b (List.mem_cons_self _ _)
          ((List.dropWhile_suffix isSpace).mem h)
      · exact hrows x (List.mem_cons_of_mem _ hx)
    · cases rows with
      | nil =>
        exact ⟨_, rfl, c1, mem_dropWhile_of_not isSpace b c1 hc1 hcs1, hcs1⟩
      | cons b2 rows =>
        obtain ⟨bl, hbl, hh⟩ := hlast
        exact ⟨bl, by simpa [trimFirst, List.getLast?_cons_cons] using hbl, hh⟩

theorem field_nonspace (line delim f : GoString) (hf : f ∈ getElementsFromLine line delim)
    (hne : f ≠ []) : ∃ c ∈ f, isSpace c = false := by
  cases f with
  | nil => exact absurd rfl hne
  | cons c t =>
    exact ⟨c, List.mem_cons_self _ _, (getElementsFromLine_trimmed line delim _ hf).1 c rfl⟩

/-- The lines of the output of `Format`, when the first and the last input line have
a non-empty field and every field is shorter than 10000010 bytes: the bodies
of the rendered lines, the first one trimmed on the left and the last one on
the right. -/
theorem Format_lines (config : Config) (lines : List GoString) (hg : '%' ∉ config.Glue)
    (hgn : '\n' ∉ config.Glue) (hl : ∀ l ∈ lines, '\n' ∉ l)
    (hk : ∀ l ∈ lines, getElementsFromLine l config.Delim ≠ [])
    (hshort : ∀ l ∈ lines, ∀ f ∈ getElementsFromLine l config.Delim, len f < 10000010)
    (hfirst : ∃ l ∈ lines.head?, ∃ f ∈ getElementsFromLine l config.Delim, f ≠ [])
    (hlast : ∃ l ∈ lines.getLast?, ∃ f ∈ getElementsFromLine l config.Delim, f ≠ []) :
    Split (Format (.strs lines) config).1 "\n".toList
      = trimLast (trimFirst (lines.map fun line =>
          renderedBody (getWidthsFromLines lines config.Delim) config.Glue
            (getElementsFromLine line config.Delim))) := by
  have hflat : (lines.map fun line =>
      renderedLine (getWidthsFromLines lines config.Delim) config.Glue
        (getElementsFromLine line config.Delim))
      = (lines.map fun line =>
          renderedBody (getWidthsFromLines lines config.Delim) config.Glue
            (getElementsFromLine line config.Delim)).map (· ++ ['\n']) := by
    rw [List.map_map]
    apply List.map_congr_left
    intro l hlm
    exact renderedLine_eq_body _ _ _ (hk l hlm)
  simp only [Format, FormatWith, inputLines]
  rw [renderLoop_eq config lines hg hshort, hflat]
  apply Split_TrimSpace_rows
  · intro b hb hnl
    obtain ⟨l, hlm, rfl⟩ := List.mem_map.mp hb
    rcases renderedBody_subset _ _ _ _ hnl with ⟨f, hf, hcf⟩ | h | h
    · exact hl l hlm (getElementsFromLine_mem l config.Delim f hf _ hcf)
    · exact absurd h (by decide)
    · exact hgn h
  · obtain ⟨l, hlh, f, hf, hfne⟩ := hfirst
    obtain ⟨c, hc, hcs⟩ := field_nonspace l config.Delim f hf hfne
    refine ⟨renderedBody (getWidthsFromLines lines config.Delim) config.Glue
      (getElementsFromLine l config.Delim), ?_, c, mem_renderedBody _ _ _ f hf c hc, hcs⟩
    rw [List.head?_map, Option.mem_def.mp hlh]
    rfl
  · obtain ⟨l, hlh, f, hf, hfne⟩ := hlast
    obtain ⟨c, hc, hcs⟩ := field_nonspace l config.Delim f hf hfne
    refine ⟨renderedBody (getWidthsFromLines lines config.Delim) config.Glue
      (getElementsFromLine l config.Delim), ?_, c, mem_renderedBody _ _ _ f hf c hc, hcs⟩
    rw [List.getLast?_map, Option.mem_def.mp hlh]
    rfl

/-- C12, as stated, fails, each time on a non-empty list of lines without newline
and a glue without percent sign and newline: an empty first line and an empty
last line are removed by the final `TrimSpace`, and under an empty `Delim` an
empty line in the middle has no field and yields no row. -/
theorem Format_line_count_stated_fails :
    (Split (Format (.strs [[], "a".toList]) DefaultConfig).1 "\n".toList = ["a".toList] ∧
        (Split (Format (.strs [[], "a".toList]) DefaultConfig).1 "\n".toList).length
          ≠ [[], "a".toList].length) ∧
      (Split (Format (.strs ["a".toList, []]) DefaultConfig).1 "\n".toList).length
        ≠ ["a".toList, []].length ∧
      (Split (Format (.strs ["a".toList, [], "b".toList])
          { Delim := [], Glue := "  ".toList }).1 "\n".toList).length
        ≠ ["a".toList, [], "b".toList].length ∧
      '%' ∉ DefaultConfig.Glue ∧ '\n' ∉ DefaultConfig.Glue := by
  decide

/-- C12, amended. For every list of lines without newline, each with at least one
field (as is the case under a non-empty `Delim`), every trimmed field being
shorter than 10000010 bytes, whose first and whose last line have a non-empty
field, and every config whose `Glue` has neither percent sign nor newline, the
output of `Format` split on newlines has exactly as many
lines as the input, in input order: line `r` is the body of the rendered line
`r`, trimmed on the left when it is the first and on the right when it is the
last; in particular every empty input line (then neither the first nor the
last) is kept as an empty output line. -/
theorem Format_line_count (config : Config) (lines : List GoString) (hg : '%' ∉ config.Glue)
    (hgn : '\n' ∉ config.Glue) (hl : ∀ l ∈ lines, '\n' ∉ l)
    (hk : ∀ l ∈ lines, getElementsFromLine l config.Delim ≠ [])
    (hshort : ∀ l ∈ lines, ∀ f ∈ getElementsFromLine l config.Delim, len f < 10000010)
    (hfirst : ∃ l ∈ lines.head?, ∃ f ∈ getElementsFromLine l config.Delim, f ≠ [])
    (hlast : ∃ l ∈ lines.getLast?, ∃ f ∈ getElementsFromLine l config.Delim, f ≠ []) :
    (Split (Format (.strs lines) config).1 "\n".toList).length = lines.length ∧
      (∀ (r : Nat) (line : GoString), lines[r]? = some line →
        (Split (Format (.strs lines) config).1 "\n".toList)[r]?
          = some (if r + 1 = lines.length then
              TrimRightFunc (if r = 0 then
                TrimLeftFunc (renderedBody (getWidthsFromLines lines config.Delim) config.Glue
                  (getElementsFromLine line config.Delim)) isSpace
              else renderedBody (getWidthsFromLines lines config.Delim) config.Glue
                (getElementsFromLine line config.Delim)) isSpace
            else if r = 0 then
              TrimLeftFunc (renderedBody (getWidthsFromLines lines config.Delim) config.Glue
                (getElementsFromLine line config.Delim)) isSpace
            else renderedBody (getWidthsFromLines lines config.Delim) config.Glue
              (getElementsFromLine line config.Delim))) ∧
      (∀ (r : Nat), lines[r]? = some [] →
        (Split (Format (.strs lines) config).1 "\n".toList)[r]? = some []) := by
  have hlines := Format_lines config lines hg hgn hl hk hshort hfirst hlast
  have hrow : ∀ (r : Nat) (line : GoString), lines[r]? = some line →
      (Split (Format (.strs lines) config).1 "\n".toList)[r]?
        = some (if r + 1 = lines.length then
            TrimRightFunc (if r = 0 then
              TrimLeftFunc (renderedBody (getWidthsFromLines lines config.Delim) config.Glue
                (getElementsFromLine line config.Delim)) isSpace
            else renderedBody (getWidthsFromLines lines config.Delim) config.Glue
              (getElementsFromLine line config.Delim)) isSpace
          else if r = 0 then
            TrimLeftFunc (renderedBody (getWidthsFromLines lines config.Delim) config.Glue
              (getElementsFromLine line config.Delim)) isSpace
          else renderedBody (getWidthsFromLines lines config.Delim) config.Glue
            (getElementsFromLine line config.Delim)) := by
    intro r line hr
    rw [hlines, trimLast_getElem?, trimFirst_getElem?, trimFirst_length, List.length_map,
      List.getElem?_map, hr]
    simp only [Option.map_some']
  refine ⟨?_, hrow, ?_⟩
  · rw [hlines, trimLast_length, trimFirst_length, List.length_map]
  · intro r hr
    have hmem : ([] : GoString) ∈ lines := List.getElem?_mem hr
    have hfs : getElementsFromLine [] config.Delim = [[]] := by
      have hne := hk [] hmem
      rw [getElementsFromLine_eq] at hne ⊢
      by_cases hd : config.Delim = []
      · simp [Split, hd] at hne
      · simp only [Split, hd, if_false, splitLoop, List.map_cons, List.map_nil]
        rfl
    rw [hrow r [] hr, hfs, renderedBody_one]
    simp [TrimLeftFunc, TrimRightFunc, List.rdropWhile]

/-- Witness for C12: three lines, the middle one empty. -/
theorem Format_line_count_witness :
    (Split (Format (.strs ["a|b".toList, [], "ccc|d".toList])
        { Delim := "|".toList, Glue := "  ".toList }).1 "\n".toList).length = 3 ∧
      (Split (Format (.strs ["a|b".toList, [], "ccc|d".toList])
        { Delim := "|".toList, Glue := "  ".toList }).1 "\n".toList)[1]? = some [] := by
  have h := Format_line_count { Delim := "|".toList, Glue := "  ".toList }
    ["a|b".toList, [], "ccc|d".toList] (by decide) (by decide) (by decide) (by decide)
    (by decide) ⟨"a|b".toList, rfl, "a".toList, by decide, by decide⟩
    ⟨"ccc|d".toList, rfl, "ccc".toList, by decide, by decide⟩
  exact ⟨h.1, h.2.2 1 rfl⟩

/-! ## The fields behind the lines of the output -/

theorem getElementsFromLine_fixed (line delim f : GoString)
    (hf : f ∈ getElementsFromLine line delim) : TrimSpace f = f := by
  rw [getElementsFromLine_eq] at hf
  obtain ⟨piece, -, rfl⟩ := List.mem_map.mp hf
  exact TrimSpace_idem piece

theorem not_space_ne_space (c : Char) (hc : isSpace c = false) : c ≠ ' ' := by
  intro h
  rw [h] at hc
  exact absurd hc (by decide)

/-- Trimming the body of a rendered line on the left does not change the fields read
back from it, when the first code point of the glue is not white space. -/
theorem renderedBody_TrimLeft_fields (g0 : Char) (g : GoString) (hg0 : isSpace g0 = false)
    (fs : List GoString) (widths : List Nat) (hne : fs ≠ [])
    (hlen : fs.length ≤ widths.length)
    (hf : ∀ f ∈ fs, g0 ∉ f ∧ TrimSpace f = f)
    (hhead : ∀ f ∈ fs, ∀ c, f.head? = some c → isSpace c = false) :
    (Split (TrimLeftFunc (renderedBody widths (g0 :: g) fs) isSpace) (g0 :: g)).map TrimSpace
      = fs := by
  cases fs with
  | nil => exact absurd rfl hne
  | cons f rest =>
    cases f with
    | cons c t =>
      have hc : isSpace c = false := hhead _ (List.mem_cons_self _ _) c rfl
      obtain ⟨tl, htl⟩ := renderedBody_head widths (g0 :: g) (c :: t) rest
      have : TrimLeftFunc (renderedBody widths (g0 :: g) ((c :: t) :: rest)) isSpace
          = renderedBody widths (g0 :: g) ((c :: t) :: rest) := by
        rw [htl]
        simp only [List.cons_append, TrimLeftFunc]
        rw [List.dropWhile_cons_of_neg (by simp [hc])]
      rw [this]
      exact renderedBody_fields g0 g (not_space_ne_space g0 hg0) _ widths hne hlen hf
    | nil =>
      cases rest with
      | nil =>
        rw [renderedBody_one]
        simp [TrimLeftFunc, Split, splitLoop]
        rfl
      | cons f2 fs =>
        cases widths with
        | nil => simp at hlen
        | cons w widths =>
          rw [renderedBody_cons]
          have hdrop : TrimLeftFunc (padRight w [] ++
              (g0 :: g ++ renderedBody widths (g0 :: g) (f2 :: fs))) isSpace
              = g0 :: g ++ renderedBody widths (g0 :: g) (f2 :: fs) := by
            simp only [TrimLeftFunc, padRight, List.nil_append]
            rw [List.dropWhile_append_of_pos (by
              intro a ha
              rw [(List.mem_replicate.mp ha).2]
              decide)]
            simp only [List.cons_append]
            rw [List.dropWhile_cons_of_neg (by simp [hg0])]
          rw [hdrop, Split_sep_append]
          simp only [List.map_cons]
          rw [renderedBody_fields g0 g (not_space_ne_space g0 hg0) (f2 :: fs) widths (by simp)
            (by simpa using hlen) (fun x hx => hf x (List.mem_cons_of_mem _ hx))]
          rfl

/-- The body of a rendered line with a non-empty field ends in a code point that is
not white space, when the glue ends in one. -/
theorem renderedBody_ends (glue : GoString) (cg : Char) (hcg : glue.getLast? = some cg)
    (hcgs : isSpace cg = false) (fs : List GoString) (widths : List Nat)
    (hlast : ∀ f ∈ fs, ∀ c, f.getLast? = some c → isSpace c = false)
    (hsome : ∃ f ∈ fs, f ≠ []) :
    ∃ c, (renderedBody widths glue fs).getLast? = some c ∧ isSpace c = false := by
  obtain ⟨f0, hf0, hf0ne⟩ := hsome
  have hne : fs ≠ [] := List.ne_nil_of_mem hf0
  cases hl : (fs.getLast hne).getLast? with
  | some c =>
    refine ⟨c, ?_, hlast _ (List.getLast_mem hne) c hl⟩
    simp [renderedBody, List.getLast?_eq_getLast _ hne, hl]
  | none =>
    have hlnil : fs.getLast hne = [] := List.getLast?_eq_none_iff.mp hl
    have hk : 2 ≤ fs.length := by
      by_contra hlt
      have h1 : fs.length = 1 := by
        have := List.length_pos.mpr hne
        omega
      obtain ⟨x, hx⟩ := List.length_eq_one.mp h1
      subst hx
      simp only [List.mem_singleton] at hf0
      subst hf0
      simp at hlnil
      exact hf0ne hlnil
    obtain ⟨k, hk2⟩ : ∃ k, fs.length - 1 = k + 1 := ⟨fs.length - 2, by omega⟩
    refine ⟨cg, ?_, hcgs⟩
    simp only [renderedBody, List.getLast?_eq_getLast _ hne, hlnil, Option.getD_some,
      List.append_nil, hk2, List.range_succ, List.map_append, List.map_cons, List.map_nil,
      List.flatten_append, List.flatten_cons, List.flatten_nil]
    simp [List.getLast?_append, hcg]

theorem rdropWhile_suffix_eq (b s : GoString) (c : Char) (hb : b.getLast? = some c)
    (hc : isSpace c = false) (hs : s <:+ b) : s.rdropWhile isSpace = s := by
  rw [List.rdropWhile_eq_self_iff]
  intro hl
  obtain ⟨u, hu⟩ := hs
  have : b.getLast? = some (s.getLast hl) := by
    rw [← hu, List.getLast?_append, List.getLast?_eq_getLast _ hl]
    rfl
  rw [hb] at this
  simp only [Option.some.injEq] at this
  rw [← this, hc]
  simp

/-- C14, as stated, fails.  On scenario A the output line `"foo    bar"` split on
the glue of two spaces has the three pieces `foo`, empty, `bar`, as the padding
is made of the characters of the glue; a field that holds the glue is cut in
two; and an empty first line is removed by the final `TrimSpace`, so that the
lines of the output no longer face the lines of the input. -/
theorem Format_fields_recovered_stated_fails :
    ¬ FieldsRecovered ["foo  |  bar".toList, "12345 | 678".toList] DefaultConfig ∧
      (Split "foo    bar".toList DefaultConfig.Glue).map TrimSpace
        = ["foo".toList, [], "bar".toList] ∧
      ¬ FieldsRecovered ["a-b|c".toList] { Delim := "|".toList, Glue := "-".toList } ∧
      ¬ FieldsRecovered [[], "a".toList] { Delim := "|".toList, Glue := "-".toList } := by
  refine ⟨fun h => ?_, by decide, fun h => ?_, fun h => ?_⟩
  · exact absurd (h 0 "foo  |  bar".toList rfl) (by decide)
  · exact absurd (h 0 "a-b|c".toList rfl) (by decide)
  · exact absurd (h 1 "a".toList rfl) (by decide)

/-- C14, amended. For every list of lines without newline, each with at least one
field, every trimmed field being shorter than 10000010 bytes, whose first and
whose last line have a non-empty field, and every config whose non-empty
`Glue` has neither percent sign nor newline, begins and ends
with a code point that is not white space and whose first code point occurs in
no field: the output of `Format` has as many lines as the input, and splitting
line `r` of it on `Glue` and trimming each piece gives, field by field, the
trimmed fields of input line `r`. -/
theorem Format_fields_recovered (config : Config) (lines : List GoString)
    (hg : '%' ∉ config.Glue) (hgn : '\n' ∉ config.Glue)
    (hg0 : ∃ c ∈ config.Glue.head?, isSpace c = false ∧
      ∀ l ∈ lines, ∀ f ∈ getElementsFromLine l config.Delim, c ∉ f)
    (hg1 : ∃ c ∈ config.Glue.getLast?, isSpace c = false)
    (hl : ∀ l ∈ lines, '\n' ∉ l)
    (hk : ∀ l ∈ lines, getElementsFromLine l config.Delim ≠ [])
    (hshort : ∀ l ∈ lines, ∀ f ∈ getElementsFromLine l config.Delim, len f < 10000010)
    (hfirst : ∃ l ∈ lines.head?, ∃ f ∈ getElementsFromLine l config.Delim, f ≠ [])
    (hlast : ∃ l ∈ lines.getLast?, ∃ f ∈ getElementsFromLine l config.Delim, f ≠ []) :
    FieldsRecovered lines config ∧
      (Split (Format (.strs lines) config).1 "\n".toList).length = lines.length := by
  have hlines := Format_lines config lines hg hgn hl hk hshort hfirst hlast
  refine ⟨?_, by rw [hlines, trimLast_length, trimFirst_length, List.length_map]⟩
  obtain ⟨g0, hg0h, hg0s, hg0f⟩ := hg0
  obtain ⟨g1, hg1h, hg1s⟩ := hg1
  obtain ⟨g, hglue⟩ : ∃ g, config.Glue = g0 :: g := by
    cases hG : config.Glue with
    | nil => rw [hG] at hg0h; simp at hg0h
    | cons a g =>
      rw [hG] at hg0h
      simp only [List.head?_cons, Option.mem_def, Option.some.injEq] at hg0h
      exact ⟨g, by rw [hg0h]⟩
  intro r line hr
  have hlm : line ∈ lines := List.getElem?_mem hr
  have hfs : ∀ f ∈ getElementsFromLine line config.Delim, g0 ∉ f ∧ TrimSpace f = f :=
    fun f hf => ⟨hg0f line hlm f hf, getElementsFromLine_fixed line config.Delim f hf⟩
  have hhead : ∀ f ∈ getElementsFromLine line config.Delim, ∀ c, f.head? = some c →
      isSpace c = false :=
    fun f hf => (getElementsFromLine_trimmed line config.Delim f hf).1
  have hlen := getWidthsFromLines_length_ge lines config.Delim line hlm
  -- the line of the output
  have hout : (Split (Format (.strs lines) config).1 "\n".toList).getD r []
      = (if r + 1 = lines.length then
          TrimRightFunc (if r = 0 then
            TrimLeftFunc (renderedBody (getWidthsFromLines lines config.Delim) config.Glue
              (getElementsFromLine line config.Delim)) isSpace
          else renderedBody (getWidthsFromLines lines config.Delim) config.Glue
            (getElementsFromLine line config.Delim)) isSpace
        else if r = 0 then
          TrimLeftFunc (renderedBody (getWidthsFromLines lines config.Delim) config.Glue
            (getElementsFromLine line config.Delim)) isSpace
        else renderedBody (getWidthsFromLines lines config.Delim) config.Glue
          (getElementsFromLine line config.Delim)) := by
    rw [List.getD_eq_getElem?_getD, hlines, trimLast_getElem?, trimFirst_getElem?,
      trimFirst_length, List.length_map, List.getElem?_map, hr]
    simp only [Option.map_some', Option.getD_some]
  -- the fields read back from the body, trimmed on the left or not
  have hX : (Split (if r = 0 then
        TrimLeftFunc (renderedBody (getWidthsFromLines lines config.Delim) config.Glue
          (getElementsFromLine line config.Delim)) isSpace
      else renderedBody (getWidthsFromLines lines config.Delim) config.Glue
        (getElementsFromLine line config.Delim)) config.Glue).map TrimSpace
      = getElementsFromLine line config.Delim := by
    rw [hglue]
    split
    · exact renderedBody_TrimLeft_fields g0 g hg0s _ _ (hk line hlm) hlen hfs hhead
    · exact renderedBody_fields g0 g (not_space_ne_space g0 hg0s) _ _ (hk line hlm) hlen hfs
  rw [hout]
  by_cases hrl : r + 1 = lines.length
  · rw [if_pos hrl]
    -- the last line: nothing to trim on the right
    have hsome : ∃ f ∈ getElementsFromLine line config.Delim, f ≠ [] := by
      obtain ⟨l, hlh, hh⟩ := hlast
      have : lines.getLast? = some line := by
        rw [List.getLast?_eq_getElem?, ← hr]
        congr 1
        omega
      rw [Option.mem_def, this] at hlh
      simp only [Option.some.injEq] at hlh
      rw [hlh]
      exact hh
    obtain ⟨c, hc, hcs⟩ := renderedBody_ends config.Glue g1 (Option.mem_def.mp hg1h) hg1s
      (getElementsFromLine line config.Delim) (getWidthsFromLines lines config.Delim)
      (fun f hf => (getElementsFromLine_trimmed line config.Delim f hf).2) hsome
    have hkeep : TrimRightFunc (if r = 0 then
          TrimLeftFunc (renderedBody (getWidthsFromLines lines config.Delim) config.Glue
            (getElementsFromLine line config.Delim)) isSpace
        else renderedBody (getWidthsFromLines lines config.Delim) config.Glue
          (getElementsFromLine line config.Delim)) isSpace
        = (if r = 0 then
          TrimLeftFunc (renderedBody (getWidthsFromLines lines config.Delim) config.Glue
            (getElementsFromLine line config.Delim)) isSpace
        else renderedBody (getWidthsFromLines lines config.Delim) config.Glue
          (getElementsFromLine line config.Delim)) := by
      split
      · exact rdropWhile_suffix_eq _ _ c hc hcs (List.dropWhile_suffix isSpace)
      · exact rdropWhile_suffix_eq _ _ c hc hcs (List.suffix_refl _)
    rw [hkeep]
    exact hX
  · rw [if_neg hrl]
    exact hX

/-- Witness for C14: two lines under the glue `"|"`, the first one with an empty
first field. -/
theorem Format_fields_recovered_witness :
    (Split ((Split (Format (.strs ["|x".toList, "ab|y".toList])
        { Delim := "|".toList, Glue := "|".toList }).1 "\n".toList).getD 0 [])
        "|".toList).map TrimSpace = [[], "x".toList] :=
  (Format_fields_recovered { Delim := "|".toList, Glue := "|".toList }
    ["|x".toList, "ab|y".toList] (by decide) (by decide)
    ⟨'|', rfl, by decide, by decide⟩ ⟨'|', rfl, by decide⟩ (by decide) (by decide) (by decide)
    ⟨"|x".toList, rfl, "x".toList, by decide, by decide⟩
    ⟨"ab|y".toList, rfl, "ab".toList, by decide, by decide⟩).1 0 "|x".toList rfl

/-! ## Formatting the output again -/

theorem getWidthsFromLines_eq_widthsOfFields (lines : List GoString) (delim : GoString) :
    getWidthsFromLines lines delim
      = widthsOfFields (lines.map fun line => getElementsFromLine line delim) := by
  simp only [getWidthsFromLines, widthsOfFields, List.foldl_map, updateWidths_eq]

/-- The output of `Format` on a string, through the fields of its lines, when the
widths of the padded columns are below 10000010. -/
theorem Format_str_eq_of_widths (config : Config) (s : GoString) (hg : '%' ∉ config.Glue)
    (hb : ∀ fs ∈ fieldsOf config.Delim s, ∀ i, i + 1 < fs.length →
      (widthsOfFields (fieldsOf config.Delim s)).getD i 0 < 10000010) :
    Format (.str s) config
      = (TrimSpace (renderRows (widthsOfFields (fieldsOf config.Delim s)) config.Glue
          (fieldsOf config.Delim s)), none) := by
  simp only [Format, FormatWith, inputLines_str]
  rw [renderLoop_eq_of_widths config _ hg, getWidthsFromLines_eq_widthsOfFields]
  · simp only [renderRows, fieldsOf, List.map_map]
    rfl
  · intro l hl i hi
    rw [getWidthsFromLines_eq_widthsOfFields]
    exact hb _ (List.mem_map_of_mem _ hl) i hi

/-- The output of `Format` on a string, through the fields of its lines, when every
field is shorter than 10000010 bytes. -/
theorem Format_str_eq (config : Config) (s : GoString) (hg : '%' ∉ config.Glue)
    (hshort : ∀ fs ∈ fieldsOf config.Delim s, ∀ f ∈ fs, len f < 10000010) :
    Format (.str s) config
      = (TrimSpace (renderRows (widthsOfFields (fieldsOf config.Delim s)) config.Glue
          (fieldsOf config.Delim s)), none) := by
  simp only [Format, FormatWith, inputLines_str]
  rw [renderLoop_eq config _ hg
    (fun l hl f hf => hshort _ (List.mem_map_of_mem _ hl) f hf),
    getWidthsFromLines_eq_widthsOfFields]
  simp only [renderRows, fieldsOf, List.map_map]
  rfl

theorem Split_single_not_mem (d : Char) (s piece : GoString) (h : piece ∈ Split s [d]) :
    d ∉ piece := by
  induction s generalizing piece with
  | nil =>
    simp only [Split, reduceCtorEq, if_false, splitLoop, List.mem_singleton] at h
    subst h
    simp
  | cons c s ih =>
    by_cases hc : c = d
    · subst hc
      have := Split_sep_append c [] s
      simp only [List.cons_append, List.nil_append] at this
      rw [this] at h
      rcases List.mem_cons.mp h with h | h
      · subst h; simp
      · exact ih piece h
    · rw [Split_cons_ne d [] s c hc] at h
      rcases mem_consHead c _ piece h with ⟨f, hf, hmem⟩ | hmem
      · subst hf
        rcases hmem with hmem | ⟨hnil, -⟩
        · intro hd
          rcases List.mem_cons.mp hd with hd | hd
          · exact hc hd.symm
          · exact ih f hmem hd
        · exact absurd hnil (Split_ne_nil d [] s)
      · exact ih piece hmem

/-- What the fields of the lines of a text are like, under a delimiter of one code
point: every line has a field, and every field is trimmed and holds neither
the delimiter nor a newline. -/
theorem fieldsOf_good (d : Char) (s : GoString) :
    fieldsOf [d] s ≠ [] ∧ ∀ fs ∈ fieldsOf [d] s, fs ≠ [] ∧
      ∀ f ∈ fs, d ∉ f ∧ '\n' ∉ f ∧ TrimSpace f = f := by
  refine ⟨?_, ?_⟩
  · simp only [fieldsOf, ne_eq, List.map_eq_nil_iff]
    exact Split_ne_nil '\n' [] s
  · intro fs hfs
    obtain ⟨line, hline, rfl⟩ := List.mem_map.mp hfs
    refine ⟨getElementsFromLine_ne_nil line [d] (by simp), ?_⟩
    intro f hf
    refine ⟨?_, ?_, getElementsFromLine_fixed line [d] f hf⟩
    · rw [getElementsFromLine_eq] at hf
      obtain ⟨piece, hp, rfl⟩ := List.mem_map.mp hf
      exact fun h => Split_single_not_mem d line piece hp (TrimSpace_mem piece d h)
    · intro h
      exact Split_single_not_mem '\n' s line hline (getElementsFromLine_mem line [d] f hf _ h)

theorem widthsOfFields_append (fl fl2 : List (List GoString)) :
    widthsOfFields (fl ++ fl2)
      = fl2.foldl (fun widths fs => mergeWidths widths (fs.map len)) (widthsOfFields fl) := by
  simp [widthsOfFields, List.foldl_append]

theorem foldl_mergeWidths_length (fl : List (List GoString)) (ws : List Nat) :
    ws.length ≤ (fl.foldl (fun widths fs => mergeWidths widths (fs.map len)) ws).length ∧
      ∀ fs ∈ fl, fs.length
        ≤ (fl.foldl (fun widths fs => mergeWidths widths (fs.map len)) ws).length := by
  induction fl generalizing ws with
  | nil => simp
  | cons fs fl ih =>
    obtain ⟨h1, h2⟩ := ih (mergeWidths ws (fs.map len))
    rw [mergeWidths_length, List.length_map] at h1
    refine ⟨?_, ?_⟩
    · simp only [List.foldl_cons]
      omega
    · intro x hx
      simp only [List.foldl_cons]
      rcases List.mem_cons.mp hx with hx | hx
      · subst hx
        omega
      · exact h2 x hx

theorem widthsOfFields_length_ge (fl : List (List GoString)) (fs : List GoString)
    (h : fs ∈ fl) : fs.length ≤ (widthsOfFields fl).length :=
  (foldl_mergeWidths_length fl []).2 fs h

theorem Split_renderRows (widths : List Nat) (glue : GoString) (fl : List (List GoString))
    (hne : ∀ fs ∈ fl, fs ≠ [])
    (hnl : ∀ fs ∈ fl, '\n' ∉ renderedBody widths glue fs) :
    Split (renderRows widths glue fl) "\n".toList
      = fl.map (renderedBody widths glue) ++ [[]] := by
  induction fl with
  | nil => rfl
  | cons fs fl ih =>
    have h1 := ih (fun x hx => hne x (List.mem_cons_of_mem _ hx))
      (fun x hx => hnl x (List.mem_cons_of_mem _ hx))
    simp only [renderRows, List.map_cons, List.flatten_cons] at h1 ⊢
    rw [renderedLine_eq_body _ _ _ (hne fs (List.mem_cons_self _ _)), List.append_assoc,
      List.singleton_append, Split_line_append _ _ (hnl fs (List.mem_cons_self _ _)), h1]
    rfl

/-- Reading back the rendered lines gives the fields they were rendered from,
followed by the single empty field of the empty text behind the last newline. -/
theorem fieldsOf_renderRows (d : Char) (hd : isSpace d = false) (widths : List Nat)
    (fl : List (List GoString)) (hlen : ∀ fs ∈ fl, fs.length ≤ widths.length)
    (hgood : ∀ fs ∈ fl, fs ≠ [] ∧ ∀ f ∈ fs, d ∉ f ∧ '\n' ∉ f ∧ TrimSpace f = f) :
    fieldsOf [d] (renderRows widths [d] fl) = fl ++ [[[]]] := by
  have hdn : d ≠ '\n' := by
    intro h
    rw [h] at hd
    exact absurd hd (by decide)
  unfold fieldsOf
  rw [Split_renderRows widths [d] fl (fun fs h => (hgood fs h).1)]
  · rw [List.map_append, List.map_map]
    congr 1
    conv_rhs => rw [← List.map_id fl]
    apply List.map_congr_left
    intro fs hfs
    simp only [Function.comp_apply, id_eq, getElementsFromLine_eq]
    exact renderedBody_fields d [] (not_space_ne_space d hd) fs widths (hgood fs hfs).1
      (hlen fs hfs) (fun f hf => ⟨((hgood fs hfs).2 f hf).1, ((hgood fs hfs).2 f hf).2.2⟩)
  · intro fs hfs hmem
    rcases renderedBody_subset _ _ _ _ hmem with ⟨f, hf, hcf⟩ | h | h
    · exact ((hgood fs hfs).2 f hf).2.1 hcf
    · exact absurd h (by decide)
    · simp only [List.mem_singleton] at h
      exact hdn h.symm

theorem TrimSpace_nil : TrimSpace [] = [] := rfl

theorem consHead_cons (c : Char) (p : GoString) (ps : List GoString) :
    consHead c (p :: ps) = (c :: p) :: ps := rfl

theorem getElementsFromLine_cons_space (d c : Char) (hc : isSpace c = true) (hcd : c ≠ d)
    (l : GoString) : getElementsFromLine (c :: l) [d] = getElementsFromLine l [d] := by
  rw [getElementsFromLine_eq, getElementsFromLine_eq, Split_cons_ne d [] l c hcd]
  cases hs : Split l [d] with
  | nil => exact absurd hs (Split_ne_nil d [] l)
  | cons p ps => simp [consHead, TrimSpace_cons_space c p hc]

/-- White space in front of a text adds lines with a single empty field in front
of its lines and changes no field. -/
theorem fieldsOf_spaces_append (d : Char) (hd : isSpace d = false) (ws x : GoString)
    (hws : ∀ c ∈ ws, isSpace c = true) :
    ∃ blanks : List (List GoString), (∀ e ∈ blanks, e = [[]]) ∧
      fieldsOf [d] (ws ++ x) = blanks ++ fieldsOf [d] x := by
  induction ws with
  | nil => exact ⟨[], by simp, rfl⟩
  | cons c ws ih =>
    obtain ⟨blanks, hb, hf⟩ := ih (fun a ha => hws a (List.mem_cons_of_mem _ ha))
    have hcs := hws c (List.mem_cons_self _ _)
    by_cases hc : c = '\n'
    · subst hc
      refine ⟨[[]] :: blanks, ?_, ?_⟩
      · intro e he
        rcases List.mem_cons.mp he with he | he
        · exact he
        · exact hb e he
      · unfold fieldsOf at hf ⊢
        rw [List.cons_append, Split_newline_cons, List.map_cons, hf]
        simp [getElementsFromLine_eq, Split, splitLoop, TrimSpace_nil]
    · refine ⟨blanks, hb, ?_⟩
      have hcd : c ≠ d := by
        intro h
        rw [h, hd] at hcs
        exact Bool.noConfusion hcs
      unfold fieldsOf at hf ⊢
      rw [← hf, List.cons_append, Split_other_cons c hc]
      cases hs : Split (ws ++ x) "\n".toList with
      | nil => exact absurd hs (Split_ne_nil '\n' [] _)
      | cons l ls =>
        simp only [consHead_cons, List.map_cons,
          getElementsFromLine_cons_space d c hcs hcd l]

theorem snocLast_cons (c : Char) (p : GoString) (l : List GoString) (hl : l ≠ []) :
    snocLast c (p :: l) = p :: snocLast c l := by
  cases l with
  | nil => exact absurd rfl hl
  | cons q ps => rfl

theorem snocLast_ne_nil (c : Char) : ∀ l : List GoString, snocLast c l ≠ []
  | [] => by simp [snocLast]
  | [_] => by simp [snocLast]
  | _ :: _ :: _ => by simp [snocLast]

theorem consHead_append (a : Char) (l m : List GoString) (hl : l ≠ []) :
    consHead a (l ++ m) = consHead a l ++ m := by
  cases l with
  | nil => exact absurd rfl hl
  | cons p ps => rfl

theorem consHead_snocLast (a c : Char) (l : List GoString) (hl : l ≠ []) :
    consHead a (snocLast c l) = snocLast c (consHead a l) := by
  cases l with
  | nil => exact absurd rfl hl
  | cons p ps =>
    cases ps with
    | nil => rfl
    | cons q qs => rfl

/-- Splitting on one code point a text with one more code point at its end. -/
theorem Split_concat (d c : Char) (x : GoString) :
    Split (x ++ [c]) [d]
      = if c = d then Split x [d] ++ [[]] else snocLast c (Split x [d]) := by
  induction x with
  | nil =>
    by_cases hc : c = d
    · subst hc
      have := Split_sep_append c [] []
      simp only [List.cons_append, List.nil_append] at this
      simp only [List.nil_append, if_true, this]
      rfl
    · rw [if_neg hc, List.nil_append, Split_cons_ne d [] [] c hc]
      rfl
  | cons a x ih =>
    have hne := Split_ne_nil d [] x
    by_cases ha : a = d
    · subst ha
      have h1 := Split_sep_append a [] (x ++ [c])
      have h2 := Split_sep_append a [] x
      simp only [List.cons_append, List.nil_append] at h1 h2
      rw [List.cons_append, h1, h2, ih]
      split
      · rfl
      · rw [snocLast_cons _ _ _ hne]
    · rw [List.cons_append, Split_cons_ne d [] _ a ha, Split_cons_ne d [] x a ha, ih]
      split
      · exact consHead_append a _ _ hne
      · exact consHead_snocLast a c _ hne

theorem map_snocLast {β : Type} (F : GoString → β) (c : Char)
    (hF : ∀ p, F (p ++ [c]) = F p) :
    ∀ l : List GoString, l ≠ [] → (snocLast c l).map F = l.map F
  | [], h => absurd rfl h
  | [p], _ => by simp [snocLast, hF]
  | p :: q :: ps, _ => by
    show List.map F (p :: snocLast c (q :: ps)) = _
    rw [List.map_cons, map_snocLast F c hF (q :: ps) (by simp)]
    rfl

theorem getElementsFromLine_concat_space (d c : Char) (hc : isSpace c = true) (hcd : c ≠ d)
    (l : GoString) : getElementsFromLine (l ++ [c]) [d] = getElementsFromLine l [d] := by
  rw [getElementsFromLine_eq, getElementsFromLine_eq, Split_concat, if_neg hcd]
  exact map_snocLast TrimSpace c (fun p => TrimSpace_concat_space c p hc) _
    (Split_ne_nil d [] l)

/-- White space behind a text adds lines with a single empty field behind its lines
and changes no field. -/
theorem fieldsOf_append_spaces (d : Char) (hd : isSpace d = false) (ws x : GoString)
    (hws : ∀ c ∈ ws, isSpace c = true) :
    ∃ blanks : List (List GoString), (∀ e ∈ blanks, e = [[]]) ∧
      fieldsOf [d] (x ++ ws) = fieldsOf [d] x ++ blanks := by
  induction ws generalizing x with
  | nil => exact ⟨[], by simp, by simp⟩
  | cons c ws ih =>
    obtain ⟨blanks, hb, hf⟩ := ih (x ++ [c]) (fun a ha => hws a (List.mem_cons_of_mem _ ha))
    have hcs := hws c (List.mem_cons_self _ _)
    have happ : x ++ c :: ws = (x ++ [c]) ++ ws := by simp
    rw [happ, hf]
    by_cases hc : c = '\n'
    · subst hc
      refine ⟨[[]] :: blanks, ?_, ?_⟩
      · intro e he
        rcases List.mem_cons.mp he with he | he
        · exact he
        · exact hb e he
      · have h1 : fieldsOf [d] (x ++ ['\n']) = fieldsOf [d] x ++ [[[]]] := by
          unfold fieldsOf
          have := Split_concat '\n' '\n' x
          rw [if_pos rfl] at this
          rw [show "\n".toList = ['\n'] from rfl, this, List.map_append]
          simp [getElementsFromLine_eq, Split, splitLoop, TrimSpace_nil]
        rw [h1]
        simp
    · refine ⟨blanks, hb, ?_⟩
      have hcd : c ≠ d := by
        intro h
        rw [h, hd] at hcs
        exact Bool.noConfusion hcs
      have h1 : fieldsOf [d] (x ++ [c]) = fieldsOf [d] x := by
        unfold fieldsOf
        have := Split_concat '\n' c x
        rw [if_neg hc] at this
        rw [show "\n".toList = ['\n'] from rfl, this]
        exact map_snocLast _ c (fun p => getElementsFromLine_concat_space d c hcs hcd p) _
          (Split_ne_nil '\n' [] x)
      rw [h1]

theorem mergeWidths_zero_right (ws : List Nat) (h : ws ≠ []) : mergeWidths ws [0] = ws := by
  cases ws with
  | nil => exact absurd rfl h
  | cons w ws => simp [mergeWidths, mergeWidths_nil_right]

theorem mergeWidths_zero_left (ls : List Nat) (h : ls ≠ []) : mergeWidths [0] ls = ls := by
  cases ls with
  | nil => exact absurd rfl h
  | cons l ls => simp [mergeWidths]

theorem foldl_mergeWidths_blanks (blanks : List (List GoString))
    (hb : ∀ e ∈ blanks, e = [[]]) (ws : List Nat) (h : ws ≠ []) :
    blanks.foldl (fun widths fs => mergeWidths widths (fs.map len)) ws = ws := by
  induction blanks with
  | nil => rfl
  | cons e blanks ih =>
    rw [List.foldl_cons, hb e (List.mem_cons_self _ _)]
    have : mergeWidths ws (([[]] : List GoString).map len) = ws := mergeWidths_zero_right ws h
    rw [this]
    exact ih (fun x hx => hb x (List.mem_cons_of_mem _ hx))

theorem widthsOfFields_ne_nil (fl : List (List GoString)) (fs : List GoString) (h : fs ∈ fl)
    (hne : fs ≠ []) : widthsOfFields fl ≠ [] := by
  intro h0
  have := widthsOfFields_length_ge fl fs h
  rw [h0] at this
  exact hne (List.length_eq_zero.mp (Nat.le_zero.mp this))

theorem widthsOfFields_append_blanks (fl blanks : List (List GoString))
    (hb : ∀ e ∈ blanks, e = [[]]) (h : widthsOfFields fl ≠ []) :
    widthsOfFields (fl ++ blanks) = widthsOfFields fl := by
  rw [widthsOfFields_append]
  exact foldl_mergeWidths_blanks blanks hb _ h

theorem widthsOfFields_blanks_append (blanks : List (List GoString))
    (hb : ∀ e ∈ blanks, e = [[]]) (fs : List GoString) (fl : List (List GoString))
    (hfs : fs ≠ []) : widthsOfFields (blanks ++ fs :: fl) = widthsOfFields (fs :: fl) := by
  have hstart : widthsOfFields blanks = [] ∨ widthsOfFields blanks = [0] := by
    cases blanks with
    | nil => left; rfl
    | cons e blanks =>
      right
      unfold widthsOfFields
      rw [List.foldl_cons, hb e (List.mem_cons_self _ _)]
      exact foldl_mergeWidths_blanks blanks (fun x hx => hb x (List.mem_cons_of_mem _ hx))
        [0] (by simp)
  have hmap : fs.map len ≠ [] := by simpa using hfs
  rw [widthsOfFields_append]
  unfold widthsOfFields
  simp only [List.foldl_cons]
  rcases hstart with h | h
  · unfold widthsOfFields at h
    rw [h]
  · unfold widthsOfFields at h
    rw [h, mergeWidths_zero_left _ hmap]
    rfl

theorem renderRows_append (widths : List Nat) (glue : GoString)
    (fl fl2 : List (List GoString)) :
    renderRows widths glue (fl ++ fl2) = renderRows widths glue fl ++ renderRows widths glue fl2 := by
  simp [renderRows]

theorem renderRows_blanks (widths : List Nat) (glue : GoString) (blanks : List (List GoString))
    (hb : ∀ e ∈ blanks, e = [[]]) : ∀ c ∈ renderRows widths glue blanks, isSpace c = true := by
  intro c hc
  simp only [renderRows, List.mem_flatten, List.mem_map] at hc
  obtain ⟨l, ⟨e, he, rfl⟩, hcl⟩ := hc
  rw [hb e he, renderedLine_one] at hcl
  simp only [List.nil_append] at hcl
  have : c = '\n' := by simpa using hcl
  rw [this]
  decide

/-- Formatting the output of `Format` again gives it back, when the delimiter and
the glue are one and the same code point, neither white space nor the percent
sign. -/
theorem Format_reformat (d : Char) (hd : isSpace d = false) (hdp : d ≠ '%') (s : GoString)
    (hshort : ∀ fs ∈ fieldsOf [d] s, ∀ f ∈ fs, len f < 10000010) :
    Format (.str (Format (.str s) { Delim := [d], Glue := [d] }).1) { Delim := [d], Glue := [d] }
      = Format (.str s) { Delim := [d], Glue := [d] } := by
  have hg : '%' ∉ ({ Delim := [d], Glue := [d] } : Config).Glue := by
    simp only [List.mem_singleton]
    exact fun h => hdp h.symm
  rw [Format_str_eq _ s hg hshort]
  simp only []
  -- the first pass
  obtain ⟨hne, hgood⟩ := fieldsOf_good d s
  have hlen : ∀ fs ∈ fieldsOf [d] s, fs.length ≤ (widthsOfFields (fieldsOf [d] s)).length :=
    fun fs hfs => widthsOfFields_length_ge _ fs hfs
  have hread := fieldsOf_renderRows d hd (widthsOfFields (fieldsOf [d] s)) (fieldsOf [d] s)
    hlen hgood
  have hW : widthsOfFields (fieldsOf [d] s) ≠ [] := by
    cases hfl : fieldsOf [d] s with
    | nil => exact absurd hfl hne
    | cons fs fl =>
      rw [← hfl]
      exact widthsOfFields_ne_nil _ fs (by rw [hfl]; exact List.mem_cons_self _ _)
        (hgood fs (by rw [hfl]; exact List.mem_cons_self _ _)).1
  -- the output between the white space trimmed off
  obtain ⟨wl, wr, hwl, hwr, hdec⟩ := TrimSpace_decomp
    (renderRows (widthsOfFields (fieldsOf [d] s)) [d] (fieldsOf [d] s))
  generalize hT : TrimSpace (renderRows (widthsOfFields (fieldsOf [d] s)) [d]
    (fieldsOf [d] s)) = out at hdec ⊢
  obtain ⟨hne2, hgood2⟩ := fieldsOf_good d out
  obtain ⟨front, hfront, hf1⟩ := fieldsOf_spaces_append d hd wl (out ++ wr) hwl
  obtain ⟨back, hback, hf2⟩ := fieldsOf_append_spaces d hd wr out hwr
  have heq : fieldsOf [d] s ++ [[[]]] = front ++ (fieldsOf [d] out ++ back) := by
    rw [← hread, hdec, List.append_assoc, hf1, hf2]
  -- the fields of the second pass are fields of the first
  have hshort2 : ∀ fs ∈ fieldsOf [d] out, ∀ f ∈ fs, len f < 10000010 := by
    intro fs hfs f hf
    have hmem : fs ∈ fieldsOf [d] s ++ [[[]]] := by
      rw [heq]
      exact List.mem_append_right _ (List.mem_append_left _ hfs)
    rcases List.mem_append.mp hmem with h | h
    · exact hshort fs h f hf
    · simp only [List.mem_singleton] at h
      subst h
      simp only [List.mem_singleton] at hf
      subst hf
      decide
  rw [Format_str_eq _ out hg hshort2]
  simp only []
  congr 1
  -- the second pass has the widths of the first
  obtain ⟨fs2, fl2, hfl2⟩ : ∃ fs2 fl2, fieldsOf [d] out = fs2 :: fl2 := by
    cases hx : fieldsOf [d] out with
    | nil => exact absurd hx hne2
    | cons a b => exact ⟨a, b, rfl⟩
  have hfs2 : fs2 ≠ [] := (hgood2 fs2 (by rw [hfl2]; exact List.mem_cons_self _ _)).1
  have hW2 : widthsOfFields (fieldsOf [d] out) = widthsOfFields (fieldsOf [d] s) := by
    have h1 := widthsOfFields_append_blanks (fieldsOf [d] s) [[[]]] (by simp) hW
    have h2 : widthsOfFields (front ++ (fieldsOf [d] out ++ back))
        = widthsOfFields (fieldsOf [d] out) := by
      rw [hfl2, List.cons_append, widthsOfFields_blanks_append front hfront fs2 _ hfs2,
        ← List.cons_append, ← hfl2]
      exact widthsOfFields_append_blanks _ back hback
        (widthsOfFields_ne_nil _ fs2 (by rw [hfl2]; exact List.mem_cons_self _ _) hfs2)
    rw [← h2, ← heq, h1]
  -- and renders the same rows between runs of newlines
  rw [hW2]
  have hr1 : TrimSpace (renderRows (widthsOfFields (fieldsOf [d] s)) [d]
      (fieldsOf [d] s ++ [[[]]])) = out := by
    rw [renderRows_append, TrimSpace_append_spaces _ _ (renderRows_blanks _ _ [[[]]] (by simp)),
      hT]
  have hr2 : TrimSpace (renderRows (widthsOfFields (fieldsOf [d] s)) [d]
      (front ++ (fieldsOf [d] out ++ back)))
      = TrimSpace (renderRows (widthsOfFields (fieldsOf [d] s)) [d] (fieldsOf [d] out)) := by
    rw [renderRows_append, renderRows_append,
      TrimSpace_spaces_append _ _ (renderRows_blanks _ _ front hfront),
      TrimSpace_append_spaces _ _ (renderRows_blanks _ _ back hback)]
  rw [← hr2, ← heq, hr1]

/-- Formatting is idempotent under `Delim = "|"` and `Glue = "|"` on fields that
`fmt` can pad: for every string `s` whose trimmed fields are all shorter than
10000010 bytes, formatting the output of `Format` on `s` again returns the
same string and the same nil error. -/
theorem Format_idempotent_short (s : GoString)
    (hshort : ∀ l ∈ Split s "\n".toList, ∀ f ∈ getElementsFromLine l "|".toList,
      len f < 10000010) :
    Format (.str (Format (.str s) { Delim := "|".toList, Glue := "|".toList }).1)
        { Delim := "|".toList, Glue := "|".toList }
      = Format (.str s) { Delim := "|".toList, Glue := "|".toList } ∧
      (Format (.str s) { Delim := "|".toList, Glue := "|".toList }).2 = none := by
  refine ⟨Format_reformat '|' (by decide) (by decide) s ?_, ?_⟩
  · intro fs hfs f hf
    obtain ⟨l, hl, rfl⟩ := List.mem_map.mp hfs
    exact hshort l hl f hf
  · simp [Format, FormatWith, inputLines]

/-! ## A field too wide for `fmt` -/

theorem len_of_all_a (A : GoString) (hA : ∀ c ∈ A, c = 'a') : len A = A.length := by
  induction A with
  | nil => rfl
  | cons c A ih =>
    have hc : c = 'a' := hA c (List.mem_cons_self _ _)
    have h := ih (fun x hx => hA x (List.mem_cons_of_mem _ hx))
    have h1 : runeLen 'a' = 1 := by decide
    simp only [len, List.map_cons, List.sum_cons, List.length_cons] at h ⊢
    rw [h, hc, h1]
    omega

/-- A string that neither begins nor ends with white space is left as it is. -/
theorem TrimSpace_eq_self (x : GoString) (h1 : ∀ c, x.head? = some c → isSpace c = false)
    (h2 : ∀ c, x.getLast? = some c → isSpace c = false) : TrimSpace x = x := by
  have hl : TrimLeftFunc x isSpace = x := by
    cases x with
    | nil => rfl
    | cons c t =>
      simp only [TrimLeftFunc]
      rw [List.dropWhile_cons_of_neg (by simp [h1 c rfl])]
  simp only [TrimSpace, hl, TrimRightFunc]
  rw [List.rdropWhile_eq_self_iff]
  intro hne
  rw [h2 _ (List.getLast?_eq_getLast _ hne)]
  simp

/-- What is kept of a string that begins with a code point that is not white space
begins with that code point. -/
theorem TrimSpace_cons_head (c : Char) (t : GoString) (hc : isSpace c = false) :
    ∃ t2, TrimSpace (c :: t) = c :: t2 := by
  have hl : TrimLeftFunc (c :: t) isSpace = c :: t := by
    simp only [TrimLeftFunc]
    rw [List.dropWhile_cons_of_neg (by simp [hc])]
  simp only [TrimSpace, hl, TrimRightFunc]
  have hp := List.rdropWhile_prefix isSpace (c :: t)
  cases hx : (c :: t).rdropWhile isSpace with
  | nil =>
    have := List.rdropWhile_eq_nil_iff.mp hx c (List.mem_cons_self _ _)
    rw [hc] at this
    exact Bool.noConfusion this
  | cons a r =>
    rw [hx] at hp
    obtain ⟨u, hu⟩ := hp
    simp only [List.cons_append, List.cons.injEq] at hu
    exact ⟨r, by rw [hu.1]⟩

/-- A line of two or more columns whose first column has a width of 10000010 or
more: `fmt.Sprintf` gives up inside the first directive and the line is the
text `%!(NOVERB)` followed by the list of all its fields as extra operands. -/
theorem sprintfElems_tooLarge (w : Nat) (hw : 10000010 ≤ w) (widths : List Nat) (c : Nat)
    (glue : GoString) (fields : List GoString) :
    sprintfElems (getStringFormat (w :: widths) (c + 2) glue) fields
      = "%!(NOVERB)".toList ++ extraArgs (fields.map GoArg.str) := by
  rw [sprintfElems, Sprintf, getStringFormat_cons, doPrintf_columnDirective_tooLarge w hw]
  rfl

/-- The extra-operand text for two strings. -/
theorem extraArgs_two (f g : GoString) :
    extraArgs [.str f, .str g]
      = "%!(EXTRA string=".toList ++ f ++ ", string=".toList ++ g ++ [')'] := by
  simp [extraArgs, typeName, List.intercalate]

theorem getElementsFromLine_piece (p rest : GoString) (hp : '|' ∉ p) :
    getElementsFromLine (p ++ '|' :: rest) "|".toList
      = TrimSpace p :: getElementsFromLine rest "|".toList := by
  rw [getElementsFromLine_eq, getElementsFromLine_eq]
  have h := Split_piece '|' [] p rest hp
  simp only [List.cons_append, List.nil_append] at h
  rw [show "|".toList = ['|'] from rfl, h]
  rfl

theorem getElementsFromLine_last (q : GoString) (hq : '|' ∉ q) :
    getElementsFromLine q "|".toList = [TrimSpace q] := by
  rw [getElementsFromLine_eq, show "|".toList = ['|'] from rfl, Split_no_sep '|' [] q hq]
  rfl

/-- Two lines, the second with a first field of 10000010 bytes or more (all of
them the letter `a`): each line comes out as the error text of `fmt`, without
newline. -/
theorem Format_wide_field (A : GoString) (hA : ∀ c ∈ A, c = 'a') (hlen : 10000010 ≤ A.length) :
    Format (.strs ["c|d".toList, A ++ "|b".toList]) DefaultConfig
      = ("%!(NOVERB)%!(EXTRA string=c, string=d)%!(NOVERB)%!(EXTRA string=".toList ++ A
          ++ ", string=b)".toList, none) := by
  have hsp : ∀ c ∈ A, isSpace c = false := fun c hc => by rw [hA c hc]; decide
  have hbar : '|' ∉ A := fun h => absurd (hA _ h) (by decide)
  have hAt : TrimSpace A = A :=
    TrimSpace_eq_self A (fun c hc => hsp c (List.mem_of_mem_head? hc))
      (fun c hc => hsp c (List.mem_of_mem_getLast? hc))
  have e1 : getElementsFromLine "c|d".toList "|".toList = ["c".toList, "d".toList] := by decide
  have e2 : getElementsFromLine (A ++ "|b".toList) "|".toList = [A, "b".toList] := by
    rw [show A ++ "|b".toList = A ++ '|' :: "b".toList from rfl,
      getElementsFromLine_piece A _ hbar, hAt]
    rfl
  have eW : getWidthsFromLines ["c|d".toList, A ++ "|b".toList] "|".toList = [len A, 1] := by
    rw [getWidthsFromLines_eq_widthsOfFields]
    simp only [List.map_cons, List.map_nil, e1, e2, widthsOfFields, List.foldl_cons,
      List.foldl_nil]
    have h1 : len "c".toList = 1 := by decide
    have h2 : len "d".toList = 1 := by decide
    have h3 : len "b".toList = 1 := by decide
    rw [h1, h2, h3]
    simp only [mergeWidths]
    rw [len_of_all_a A hA]
    simp only [List.cons.injEq, and_true, Nat.max_self]
    omega
  have hw : 10000010 ≤ len A := by rw [len_of_all_a A hA]; exact hlen
  simp only [Format, FormatWith, inputLines, DefaultConfig, List.foldl_cons, List.foldl_nil]
  rw [eW, e1, e2]
  simp only [List.length_cons, List.length_nil, List.nil_append]
  rw [sprintfElems_tooLarge (len A) hw [1] 0, sprintfElems_tooLarge (len A) hw [1] 0]
  simp only [List.map_cons, List.map_nil]
  rw [extraArgs_two, extraArgs_two]
  congr 1
  rw [TrimSpace_eq_self]
  · simp
  · intro c hc
    simp at hc
    subst hc
    decide
  · intro c hc
    simp [List.getLast?_cons, List.getLast?_append] at hc
    subst hc
    decide

/-- On the same two lines the concatenation of the rendered lines, trimmed, begins
with the field `c`. -/
theorem Format_wide_field_stated (A : GoString) :
    ∃ t, TrimSpace ((["c|d".toList, A ++ "|b".toList].map fun line =>
        renderedLine (getWidthsFromLines ["c|d".toList, A ++ "|b".toList] DefaultConfig.Delim)
          DefaultConfig.Glue (getElementsFromLine line DefaultConfig.Delim)).flatten)
      = 'c' :: t := by
  have e1 : getElementsFromLine "c|d".toList DefaultConfig.Delim = ["c".toList, "d".toList] := by
    decide
  obtain ⟨t, ht⟩ := renderedLine_head
    (getWidthsFromLines ["c|d".toList, A ++ "|b".toList] DefaultConfig.Delim)
    DefaultConfig.Glue "c".toList ["d".toList]
  simp only [List.map_cons, List.flatten_cons, e1, ht]
  exact TrimSpace_cons_head 'c' _ (by decide)

/-- C1 fails on the code.  On the two lines `"c|d"` and `"aa...a|b"`, the second
with a first field of 10000010 letters, under the default config (whose glue
has no percent sign), the width of column 0 is 10000010 and `getStringFormat`
writes the directive `%-10000010s`; `fmt.Sprintf` gives up on a width that
large, prints `%!(NOVERB)`, reads nothing of the rest of the format and lists
the fields as extra operands.  `Format` returns that error text for both lines,
without any newline, and not the rendered lines of C1, which begin with the
field `c`. -/
theorem Format_renders_wide_field :
    '%' ∉ DefaultConfig.Glue ∧
      Format (.strs ["c|d".toList, List.replicate 10000010 'a' ++ "|b".toList]) DefaultConfig
        = ("%!(NOVERB)%!(EXTRA string=c, string=d)%!(NOVERB)%!(EXTRA string=".toList
            ++ List.replicate 10000010 'a' ++ ", string=b)".toList, none) ∧
      Format (.strs ["c|d".toList, List.replicate 10000010 'a' ++ "|b".toList]) DefaultConfig
        ≠ (TrimSpace ((["c|d".toList, List.replicate 10000010 'a' ++ "|b".toList].map
            fun line =>
              renderedLine
                (getWidthsFromLines ["c|d".toList, List.replicate 10000010 'a' ++ "|b".toList]
                  DefaultConfig.Delim)
                DefaultConfig.Glue (getElementsFromLine line DefaultConfig.Delim)).flatten),
            none) := by
  have hA : ∀ c ∈ List.replicate 10000010 'a', c = 'a' :=
    fun c hc => List.eq_of_mem_replicate hc
  have hlen : 10000010 ≤ (List.replicate 10000010 'a').length :=
    (List.length_replicate _ _).ge
  have h := Format_wide_field (List.replicate 10000010 'a') hA hlen
  refine ⟨by decide, h, ?_⟩
  obtain ⟨t, ht⟩ := Format_wide_field_stated (List.replicate 10000010 'a')
  rw [h, ht]
  intro hne
  have h2 : ("%!(NOVERB)%!(EXTRA string=c, string=d)%!(NOVERB)%!(EXTRA string=".toList
      ++ List.replicate 10000010 'a' ++ ", string=b)".toList).head? = ('c' :: t).head? :=
    congrArg (fun x : GoString × Option GoError => x.1.head?) hne
  have h3 : '%' = 'c' := Option.some.inj h2
  exact absurd h3 (by decide)

/-- C13 fails on the code.  For a line of two fields under a vector of three widths
the format is right in its shape, `k - 1` directives with the glue and then
`%s` with the newline, but the line it renders is not always the one stated.
Under `Glue = "%s"` the glue is read by `fmt.Sprintf` as a directive and takes
the last field: the line is `"ab%!s(MISSING)\n"`, with no glue before the last
field and no newline right after it (stated: `"a%sb\n"`).  Under the default glue and a first width of 10000010
`fmt.Sprintf` gives up on the width: the line is
`"%!(NOVERB)%!(EXTRA string=a, string=b)"`, without newline. -/
theorem getStringFormat_fewer_fields_fails :
    (getStringFormat [1, 1, 1] 2 "%s".toList = "%-1s%s%s\n".toList ∧
        Sprintf (getStringFormat [1, 1, 1] 2 "%s".toList) [.str "a".toList, .str "b".toList]
          = some "ab%!s(MISSING)\n".toList ∧
        renderedLine [1, 1, 1] "%s".toList ["a".toList, "b".toList] = "a%sb\n".toList ∧
        Format (.strs ["a|b".toList, "c|d|e".toList]) { Delim := "|".toList, Glue := "%s".toList }
          = ("ab%!s(MISSING)\ncde%!s(MISSING)%!s(MISSING)".toList, none)) ∧
      (getStringFormat [10000010, 1, 1] 2 "  ".toList = "%-10000010s  %s\n".toList ∧
        Sprintf (getStringFormat [10000010, 1, 1] 2 "  ".toList)
            [.str "a".toList, .str "b".toList]
          = some "%!(NOVERB)%!(EXTRA string=a, string=b)".toList ∧
        (renderedLine [10000010, 1, 1] "  ".toList ["a".toList, "b".toList]).head?
          = some 'a') := by
  refine ⟨by decide, by decide, by decide, ?_⟩
  obtain ⟨t, ht⟩ := renderedLine_head [10000010, 1, 1] "  ".toList "a".toList ["b".toList]
  rw [ht]
  rfl

/-- A line of three or more columns whose second column has a width of 10000010 or
more, the first one being narrower: the first field is padded and followed by
the glue, then `fmt.Sprintf` gives up inside the second directive. -/
theorem sprintfElems_second_tooLarge (w0 w : Nat) (hw0 : w0 < 10000010) (hw : 10000010 ≤ w)
    (widths : List Nat) (c : Nat) (glue : GoString) (hg : '%' ∉ glue) (f : GoString)
    (fields : List GoString) :
    sprintfElems (getStringFormat (w0 :: w :: widths) (c + 3) glue) (f :: fields)
      = padRight w0 f ++ (glue ++ ("%!(NOVERB)".toList ++ extraArgs (fields.map GoArg.str))) := by
  rw [sprintfElems, Sprintf, getStringFormat_cons, getStringFormat_cons, List.map_cons,
    doPrintf_columnDirective w0 hw0, doPrintf_literal _ _ _ hg,
    doPrintf_columnDirective_tooLarge w hw]
  rfl

/-- A text of two lines whose second column is too wide for `fmt`: formatted once,
it comes out as a single line; formatted again, that line has other fields and
other widths. -/
theorem Format_wide_field_twice (A : GoString) (hA : ∀ c ∈ A, c = 'a')
    (hlen : 10000010 ≤ A.length) :
    Format (.str ("c|d|e\nxyz|".toList ++ A ++ "|z".toList))
        { Delim := "|".toList, Glue := "|".toList }
      = ("c  |%!(NOVERB)%!(EXTRA string=d, string=e)xyz|%!(NOVERB)%!(EXTRA string=".toList
          ++ A ++ ", string=z)".toList, none) ∧
      Format (.str ("c  |%!(NOVERB)%!(EXTRA string=d, string=e)xyz|%!(NOVERB)%!(EXTRA string=".toList
          ++ A ++ ", string=z)".toList)) { Delim := "|".toList, Glue := "|".toList }
        = ("c|%!(NOVERB)%!(EXTRA string=d, string=e)xyz|%!(NOVERB)%!(EXTRA string=".toList
          ++ A ++ ", string=z)".toList, none) := by
  have hsp : ∀ c ∈ A, isSpace c = false := fun c hc => by rw [hA c hc]; decide
  have hbar : '|' ∉ A := fun h => absurd (hA _ h) (by decide)
  have hnl : '\n' ∉ A := fun h => absurd (hA _ h) (by decide)
  have hAt : TrimSpace A = A :=
    TrimSpace_eq_self A (fun c hc => hsp c (List.mem_of_mem_head? hc))
      (fun c hc => hsp c (List.mem_of_mem_getLast? hc))
  have hw : 10000010 ≤ len A := by rw [len_of_all_a A hA]; exact hlen
  -- the last piece of the output
  have hp3bar : '|' ∉ "%!(NOVERB)%!(EXTRA string=".toList ++ A ++ ", string=z)".toList := by
    intro h
    rcases List.mem_append.mp h with h | h
    · rcases List.mem_append.mp h with h | h
      · exact absurd h (by decide)
      · exact hbar h
    · exact absurd h (by decide)
  have hp3nl : '\n' ∉ "%!(NOVERB)%!(EXTRA string=".toList ++ A ++ ", string=z)".toList := by
    intro h
    rcases List.mem_append.mp h with h | h
    · rcases List.mem_append.mp h with h | h
      · exact absurd h (by decide)
      · exact hnl h
    · exact absurd h (by decide)
  have hp3t : TrimSpace ("%!(NOVERB)%!(EXTRA string=".toList ++ A ++ ", string=z)".toList)
      = "%!(NOVERB)%!(EXTRA string=".toList ++ A ++ ", string=z)".toList := by
    apply TrimSpace_eq_self
    · intro c hc
      simp at hc
      subst hc
      decide
    · intro c hc
      simp [List.getLast?_cons, List.getLast?_append] at hc
      subst hc
      decide
  have hp3l : ("%!(NOVERB)%!(EXTRA string=".toList ++ A ++ ", string=z)".toList).getLast?
      = some ')' := by
    simp [List.getLast?_cons, List.getLast?_append]
  refine ⟨?_, ?_⟩
  · -- the first pass
    have hs : Split ("c|d|e\nxyz|".toList ++ A ++ "|z".toList) "\n".toList
        = ["c|d|e".toList, "xyz|".toList ++ A ++ "|z".toList] := by
      have e : "c|d|e\nxyz|".toList ++ A ++ "|z".toList
          = "c|d|e".toList ++ '\n' :: ("xyz|".toList ++ A ++ "|z".toList) := by simp
      rw [e, Split_line_append _ _ (by decide), Split_line]
      intro h
      rcases List.mem_append.mp h with h | h
      · rcases List.mem_append.mp h with h | h
        · exact absurd h (by decide)
        · exact hnl h
      · exact absurd h (by decide)
    have e1 : getElementsFromLine "c|d|e".toList "|".toList
        = ["c".toList, "d".toList, "e".toList] := by decide
    have e2 : getElementsFromLine ("xyz|".toList ++ A ++ "|z".toList) "|".toList
        = ["xyz".toList, A, "z".toList] := by
      have e : "xyz|".toList ++ A ++ "|z".toList
          = "xyz".toList ++ '|' :: (A ++ '|' :: "z".toList) := by simp
      rw [e, getElementsFromLine_piece _ _ (by decide), getElementsFromLine_piece _ _ hbar,
        getElementsFromLine_last _ (by decide), hAt]
      rfl
    have eW : getWidthsFromLines ["c|d|e".toList, "xyz|".toList ++ A ++ "|z".toList] "|".toList
        = [3, len A, 1] := by
      rw [getWidthsFromLines_eq_widthsOfFields]
      simp only [List.map_cons, List.map_nil, e1, e2, widthsOfFields, List.foldl_cons,
        List.foldl_nil]
      have h1 : len "c".toList = 1 := by decide
      have h2 : len "d".toList = 1 := by decide
      have h3 : len "e".toList = 1 := by decide
      have h4 : len "xyz".toList = 3 := by decide
      have h5 : len "z".toList = 1 := by decide
      rw [h1, h2, h3, h4, h5]
      simp only [mergeWidths]
      have : max 1 (len A) = len A := by omega
      rw [this]
      rfl
    simp only [Format, FormatWith, inputLines_str, hs, List.foldl_cons, List.foldl_nil]
    rw [eW, e1, e2]
    simp only [List.length_cons, List.length_nil, List.nil_append]
    rw [sprintfElems_second_tooLarge 3 (len A) (by decide) hw [1] 0 _ (by decide),
      sprintfElems_second_tooLarge 3 (len A) (by decide) hw [1] 0 _ (by decide)]
    simp only [List.map_cons, List.map_nil]
    rw [extraArgs_two, extraArgs_two]
    have hc : padRight 3 "c".toList = "c  ".toList := by decide
    have hx : padRight 3 "xyz".toList = "xyz".toList := by decide
    rw [hc, hx]
    congr 1
    rw [TrimSpace_eq_self]
    · simp
    · intro c hc
      simp at hc
      subst hc
      decide
    · intro c hc
      simp [List.getLast?_cons, List.getLast?_append] at hc
      subst hc
      decide
  · -- the second pass
    have e : "c  |%!(NOVERB)%!(EXTRA string=d, string=e)xyz|%!(NOVERB)%!(EXTRA string=".toList
          ++ A ++ ", string=z)".toList
        = "c  ".toList ++ '|' :: ("%!(NOVERB)%!(EXTRA string=d, string=e)xyz".toList ++ '|' ::
            ("%!(NOVERB)%!(EXTRA string=".toList ++ A ++ ", string=z)".toList)) := by simp
    have e3 : "c|%!(NOVERB)%!(EXTRA string=d, string=e)xyz|%!(NOVERB)%!(EXTRA string=".toList
          ++ A ++ ", string=z)".toList
        = "c".toList ++ '|' :: ("%!(NOVERB)%!(EXTRA string=d, string=e)xyz".toList ++ '|' ::
            ("%!(NOVERB)%!(EXTRA string=".toList ++ A ++ ", string=z)".toList)) := by simp
    rw [e, e3]
    generalize hp3 : "%!(NOVERB)%!(EXTRA string=".toList ++ A ++ ", string=z)".toList = p3
      at hp3bar hp3nl hp3t hp3l ⊢
    have hs : Split ("c  ".toList ++ '|' :: ("%!(NOVERB)%!(EXTRA string=d, string=e)xyz".toList
        ++ '|' :: p3)) "\n".toList
        = ["c  ".toList ++ '|' :: ("%!(NOVERB)%!(EXTRA string=d, string=e)xyz".toList
            ++ '|' :: p3)] := by
      apply Split_line
      intro h
      rcases List.mem_append.mp h with h | h
      · exact absurd h (by decide)
      · rcases List.mem_cons.mp h with h | h
        · exact absurd h (by decide)
        · rcases List.mem_append.mp h with h | h
          · exact absurd h (by decide)
          · rcases List.mem_cons.mp h with h | h
            · exact absurd h (by decide)
            · exact hp3nl h
    have e1 : getElementsFromLine ("c  ".toList ++ '|' ::
        ("%!(NOVERB)%!(EXTRA string=d, string=e)xyz".toList ++ '|' :: p3)) "|".toList
        = ["c".toList, "%!(NOVERB)%!(EXTRA string=d, string=e)xyz".toList, p3] := by
      rw [getElementsFromLine_piece _ _ (by decide), getElementsFromLine_piece _ _ (by decide),
        getElementsFromLine_last _ hp3bar, hp3t]
      have h1 : TrimSpace "c  ".toList = "c".toList := by decide
      have h2 : TrimSpace "%!(NOVERB)%!(EXTRA string=d, string=e)xyz".toList
          = "%!(NOVERB)%!(EXTRA string=d, string=e)xyz".toList := by decide
      rw [h1, h2]
    have eW : getWidthsFromLines ["c  ".toList ++ '|' ::
        ("%!(NOVERB)%!(EXTRA string=d, string=e)xyz".toList ++ '|' :: p3)] "|".toList
        = [1, 41, len p3] := by
      rw [getWidthsFromLines_eq_widthsOfFields]
      simp only [List.map_cons, List.map_nil, e1, widthsOfFields, List.foldl_cons,
        List.foldl_nil]
      have h1 : len "c".toList = 1 := by decide
      have h2 : len "%!(NOVERB)%!(EXTRA string=d, string=e)xyz".toList = 41 := by decide
      rw [h1, h2]
      rfl
    simp only [Format, FormatWith, inputLines_str, hs, List.foldl_cons, List.foldl_nil]
    rw [eW, e1]
    have hfmt := sprintfElems_getStringFormat "|".toList (by decide)
      ["c".toList, "%!(NOVERB)%!(EXTRA string=d, string=e)xyz".toList, p3] [1, 41, len p3]
      (by simp) (by
        intro i hi
        simp only [List.length_cons, List.length_nil] at hi
        have hi2 : i = 0 ∨ i = 1 := by omega
        rcases hi2 with hi2 | hi2 <;> subst hi2 <;> simp)
    rw [List.nil_append, hfmt, renderedLine_cons, renderedLine_cons, renderedLine_one]
    have hc : padRight 1 "c".toList = "c".toList := by decide
    have hx : padRight 41 "%!(NOVERB)%!(EXTRA string=d, string=e)xyz".toList
        = "%!(NOVERB)%!(EXTRA string=d, string=e)xyz".toList := by decide
    rw [hc, hx]
    congr 1
    have hcat : "c".toList ++ ("|".toList ++
        ("%!(NOVERB)%!(EXTRA string=d, string=e)xyz".toList ++
          ("|".toList ++ (p3 ++ "\n".toList))))
        = ("c".toList ++ '|' :: ("%!(NOVERB)%!(EXTRA string=d, string=e)xyz".toList
            ++ '|' :: p3)) ++ "\n".toList := by simp
    rw [hcat, TrimSpace_append_spaces _ _ (by decide), TrimSpace_eq_self]
    · intro c hc
      simp at hc
      subst hc
      decide
    · intro c hc
      simp only [List.getLast?_cons, List.getLast?_append, hp3l] at hc
      simp at hc
      subst hc
      decide

/-- C20 fails on the code.  Under `Delim = "|"` and `Glue = "|"` the text of two
lines `"c|d|e"` and `"xyz|aa...a|z"`, the second with a middle field of
10000010 letters, gives the width 10000010 to column 1.  In the first pass
`fmt.Sprintf` pads column 0 and gives up on the directive `%-10000010s` of
column 1: both lines come out as error text without newline, the output is the
single line `"c  |%!(NOVERB)...xyz|%!(NOVERB)...)"`.  Formatting that output
again reads it as one line of three fields, of which the first is `c` with
width 1: the padding after `c` is gone, and the second output differs from the
first. -/
theorem Format_idempotent_wide_field :
    Format (.str ("c|d|e\nxyz|".toList ++ List.replicate 10000010 'a' ++ "|z".toList))
        { Delim := "|".toList, Glue := "|".toList }
      = ("c  |%!(NOVERB)%!(EXTRA string=d, string=e)xyz|%!(NOVERB)%!(EXTRA string=".toList
          ++ List.replicate 10000010 'a' ++ ", string=z)".toList, none) ∧
      Format (.str (Format (.str ("c|d|e\nxyz|".toList ++ List.replicate 10000010 'a'
          ++ "|z".toList)) { Delim := "|".toList, Glue := "|".toList }).1)
          { Delim := "|".toList, Glue := "|".toList }
        = ("c|%!(NOVERB)%!(EXTRA string=d, string=e)xyz|%!(NOVERB)%!(EXTRA string=".toList
          ++ List.replicate 10000010 'a' ++ ", string=z)".toList, none) ∧
      Format (.str (Format (.str ("c|d|e\nxyz|".toList ++ List.replicate 10000010 'a'
          ++ "|z".toList)) { Delim := "|".toList, Glue := "|".toList }).1)
          { Delim := "|".toList, Glue := "|".toList }
        ≠ Format (.str ("c|d|e\nxyz|".toList ++ List.replicate 10000010 'a' ++ "|z".toList))
          { Delim := "|".toList, Glue := "|".toList } := by
  have hA : ∀ c ∈ List.replicate 10000010 'a', c = 'a' :=
    fun c hc => List.eq_of_mem_replicate hc
  have hlen : 10000010 ≤ (List.replicate 10000010 'a').length :=
    (List.length_replicate _ _).ge
  obtain ⟨h1, h2⟩ := Format_wide_field_twice (List.replicate 10000010 'a') hA hlen
  have h3 : Format (.str (Format (.str ("c|d|e\nxyz|".toList ++ List.replicate 10000010 'a'
      ++ "|z".toList)) { Delim := "|".toList, Glue := "|".toList }).1)
      { Delim := "|".toList, Glue := "|".toList }
      = ("c|%!(NOVERB)%!(EXTRA string=d, string=e)xyz|%!(NOVERB)%!(EXTRA string=".toList
        ++ List.replicate 10000010 'a' ++ ", string=z)".toList, none) := by
    rw [h1]
    exact h2
  refine ⟨h1, h3, ?_⟩
  rw [h3, h1]
  intro hne
  have h4 : (("c|%!(NOVERB)%!(EXTRA string=d, string=e)xyz|%!(NOVERB)%!(EXTRA string=".toList
      ++ List.replicate 10000010 'a' ++ ", string=z)".toList).drop 1).head?
      = (("c  |%!(NOVERB)%!(EXTRA string=d, string=e)xyz|%!(NOVERB)%!(EXTRA string=".toList
      ++ List.replicate 10000010 'a' ++ ", string=z)".toList).drop 1).head? :=
    congrArg (fun x : GoString × Option GoError => (x.1.drop 1).head?) hne
  have h5 : '|' = ' ' := Option.some.inj h4
  exact absurd h5 (by decide)

end Columnize
